import Mathlib

set_option maxHeartbeats 1000000

/-!
Verification development for the Lampira streaming chat core.

The definitions below are a shallow embedding of the streaming SSE decoder
(`fetchStream` in `js/api/base.js`, in its later revision found in the
repository as `src/unnamed/part_003`, whose helper `parseSSEData` factors the
per-line payload handling) and of the chat-session service
(`src/js/services/chat.js`).

Modelling conventions:
* Network byte chunks are modelled as `List Char` (the JS code runs a
  `TextDecoder` over the raw bytes; UTF-8 boundary reassembly is transparent
  at that level, so the embedding works with decoded characters).
* The platform's `JSON.parse`, applied to a `data:` payload, is modelled by a
  function parameter `parse : List Char → Option Payload`: `none` is a parse
  failure (the `catch` branch), `some p` the parsed object restricted to the
  fields the code reads.
* JavaScript truthiness on strings is modelled by comparing with the empty
  string: an absent string field and `""` behave identically under `||`, so
  both are represented by `""` (or by `Option.none` where the code
  distinguishes presence, e.g. `finish_reason`).
* Callbacks (`onChunk`, `onComplete`, `onError`, `onProcessing`,
  `onAnnotations`) are not passed as functions; instead the decoder returns
  the ordered list of callback invocations it would perform (`CB` below),
  which the chat-session model then folds exactly as the source callbacks do.
-/

namespace Lampira

/-- One `url_citation` object inside a delta annotation entry, as read by the
source (`annotation.url_citation.url`, `annotation.url_citation.title`).
An absent `title` and an empty `title` are both falsy under `||` in the
source, so both are modelled as `""`. -/
structure UrlCitation where
  url : String
  title : String
  deriving DecidableEq

/-- One entry of `parsed.choices[0].delta.annotations`. The source reads
`annotation.type`, `annotation.url_citation`, `annotation.start_index` and
`annotation.end_index` (the indices are read from the entry itself, not from
the nested `url_citation` object). -/
structure AnnEntry where
  type : String
  url_citation : Option UrlCitation
  start_index : Option Int
  end_index : Option Int
  deriving DecidableEq

/-- The `delta` object of the first choice: `content` (absent and `""` are
both falsy, hence collapsed to `""`) and the optional `annotations` array
(field `anns` here; the plural source name is kept in spirit). -/
structure Delta where
  content : String
  anns : Option (List AnnEntry)
  deriving DecidableEq

/-- One element of `parsed.choices`. -/
structure Choice where
  delta : Option Delta
  finish_reason : Option String
  deriving DecidableEq

/-- The `parsed.error` object: `message` (absent collapsed to `""`, both
falsy) and `code` (absent collapsed to `0`, both falsy under `|| 500`). -/
structure ErrInfo where
  message : String
  code : Int
  deriving DecidableEq

/-- The vendor `usage` object. The source never inspects its fields (it is
captured and passed through to `onComplete`), so it is modelled opaquely. -/
structure Usage where
  tokens : Nat
  deriving DecidableEq

/-- A parsed SSE `data:` payload, restricted to the fields the source reads:
`error`, `choices` and `usage`. -/
structure Payload where
  error : Option ErrInfo
  choices : List Choice
  usage : Option Usage
  deriving DecidableEq

/-- The model of the platform `JSON.parse` applied to a payload string:
`none` means the parse threw (malformed frame), `some p` the parsed object. -/
def JsonParse : Type := List Char → Option Payload

/-- A citation accumulated by the decoder (the object pushed onto the
`annotations` array in the source: url, title, startIndex, endIndex). -/
structure Citation where
  url : String
  title : String
  startIndex : Option Int
  endIndex : Option Int
  deriving DecidableEq

/-- The `APIError` class: `message` and `status` (its `data` payload field is
carried nowhere relevant to the claims and is omitted). -/
structure APIError where
  message : String
  status : Int
  deriving DecidableEq

/-- The mutable decode-loop state of `fetchStream`: `fullContent`,
the `annotations` array (field `cites` here) and `usage`. -/
structure DecodeState where
  fullContent : String
  cites : List Citation
  usage : Option Usage
  deriving DecidableEq

/-- Initial decode state: `fullContent = ''`, `annotations = []`,
`usage = null`. -/
def initDecode : DecodeState := ⟨"", [], none⟩

/-- One callback invocation performed by `fetchStream`, in order. -/
inductive CB where
  | chunk (delta full : String)
  | cbSources (sources : List Citation)
  | processing
  | complete (content : String) (u : Option Usage) (sources : List Citation)
  | errorCB (e : APIError)
  deriving DecidableEq

/-- Model of JavaScript `String.prototype.trim` on a character list. -/
def jsTrim (l : List Char) : List Char :=
  ((l.dropWhile Char.isWhitespace).reverse.dropWhile Char.isWhitespace).reverse

/-- Model of JavaScript `String.prototype.includes`: does `pat` occur as a
contiguous run inside the list? -/
def hasSub (pat : List Char) : List Char → Bool
  | [] => pat.isEmpty
  | c :: t => pat.isPrefixOf (c :: t) || hasSub pat t

/-- Model of `buffer.split('\n')` followed by `buffer = lines.pop()`:
returns the complete lines (text before each newline) and the trailing
fragment after the last newline. -/
def splitNl : List Char → List (List Char) × List Char
  | [] => ([], [])
  | c :: rest =>
    let p := splitNl rest
    if c = '\n' then ([] :: p.1, p.2)
    else
      match p.1 with
      | l :: ls => ((c :: l) :: ls, p.2)
      | [] => ([], c :: p.2)

/-- Model of the full `buffer.split('\n')` (used by the transport-close flush,
which does not pop the last fragment). -/
def splitAll (l : List Char) : List (List Char) :=
  (splitNl l).1 ++ [(splitNl l).2]

/-- Helper for `urlHostname`: the remainder of the list after the first
occurrence of `pat`, if any. -/
def afterSub (pat : List Char) : List Char → Option (List Char)
  | [] => if pat.isEmpty then some [] else none
  | c :: t => if pat.isPrefixOf (c :: t) then some ((c :: t).drop pat.length) else afterSub pat t

/-- Model of the platform `new URL(u).hostname` for the common scheme://
URLs the decoder sees: the authority after `://` up to `/`, `?` or `#`,
with userinfo (before `@`) and port (after `:`) stripped. -/
def urlHostname (u : String) : String :=
  let cs := u.toList
  let auth := (afterSub "://".toList cs).getD cs
  let hostport := auth.takeWhile (fun c => ¬ (c = '/' ∨ c = '?' ∨ c = '#'))
  let host1 := (afterSub ['@'] hostport).getD hostport
  String.mk (host1.takeWhile (fun c => ¬ (c = ':')))

/-- Result of `parseSSEData` on one payload: continue decoding (`next`, the
source returns `true`), terminate-and-complete (`stop`, the source returns
`false`), or an `APIError` thrown out of the loop (`err`). Each carries the
updated decode state and the callback invocations performed. -/
inductive SSEStep where
  | next (st : DecodeState) (evs : List CB)
  | stop (st : DecodeState) (evs : List CB)
  | err (e : APIError) (st : DecodeState) (evs : List CB)
  deriving DecidableEq

/-- The state carried by an `SSEStep`. -/
def stepState : SSEStep → DecodeState
  | SSEStep.next st _ => st
  | SSEStep.stop st _ => st
  | SSEStep.err _ st _ => st

/-- The callback invocations carried by an `SSEStep`. -/
def stepEvs : SSEStep → List CB
  | SSEStep.next _ evs => evs
  | SSEStep.stop _ evs => evs
  | SSEStep.err _ _ evs => evs

/-- Whether the step lets the decode loop continue (source returned `true`). -/
def stepIsNext : SSEStep → Bool
  | SSEStep.next _ _ => true
  | _ => false

/-- The `APIError` thrown by the step, if any. -/
def stepErr : SSEStep → Option APIError
  | SSEStep.err e _ _ => some e
  | _ => none

/-- The citation object the source pushes for a fresh `url_citation`
annotation entry: the title falls back to the URL hostname when the
`url_citation.title` field is absent or empty
(`annotation.url_citation.title || new URL(...).hostname`). -/
def mkCitation (a : AnnEntry) (uc : UrlCitation) : Citation :=
  { url := uc.url
  , title := if uc.title = "" then urlHostname uc.url else uc.title
  , startIndex := a.start_index
  , endIndex := a.end_index }

/-- One iteration of the `for (const annotation of deltaAnnotations)` loop:
a `url_citation` entry whose URL is not yet present is pushed and
`onAnnotations` fires with a copy of the array; anything else is a no-op. -/
def pushAnn (st : DecodeState) (a : AnnEntry) : DecodeState × List CB :=
  if a.type = "url_citation" then
    match a.url_citation with
    | some uc =>
      if st.cites.any (fun c => c.url = uc.url) then (st, [])
      else
        let cs := st.cites ++ [mkCitation a uc]
        ({ st with cites := cs }, [CB.cbSources cs])
    | none => (st, [])
  else (st, [])

/-- The whole annotation loop over the entries of one delta. -/
def foldAnns (st : DecodeState) : List AnnEntry → DecodeState × List CB
  | [] => (st, [])
  | a :: rest =>
    let p := pushAnn st a
    let q := foldAnns p.1 rest
    (q.1, p.2 ++ q.2)

/-- Reading `parsed.choices?.[0]?.delta?.content || ''`. -/
def contentOf (p : Payload) : String :=
  ((p.choices.head?.bind Choice.delta).map Delta.content).getD ""

/-- Reading `parsed.choices?.[0]?.delta?.annotations`, defaulting to no
entries when the chain is absent (the source also checks `Array.isArray`,
which always holds for a present modelled list). -/
def annsOf (p : Payload) : List AnnEntry :=
  ((p.choices.head?.bind Choice.delta).bind Delta.anns).getD []

/-- Reading `parsed.choices?.[0]?.finish_reason`. -/
def finishOf (p : Payload) : Option String :=
  p.choices.head?.bind Choice.finish_reason

/-- The `APIError` built from a vendor `error` payload:
`parsed.error.message || 'Stream error occurred'` and
`parsed.error.code || 500`. -/
def mkStreamError (e : ErrInfo) : APIError :=
  { message := if e.message = "" then "Stream error occurred" else e.message
  , status := if e.code = 0 then 500 else e.code }

/-- The body of `parseSSEData` after the termination-sentinel checks: parse
the payload as JSON (failure skips the line and continues), surface a vendor
`error` field as a thrown `APIError`, append non-empty delta content and fire
`onChunk`, run the annotation loop, throw on `finish_reason === 'error'`
(any other finish reason is informational only), and capture `usage`. -/
def parseJsonData (parse : JsonParse) (st : DecodeState) (d : List Char) : SSEStep :=
  match parse d with
  | none => SSEStep.next st []
  | some p =>
    match p.error with
    | some e => SSEStep.err (mkStreamError e) st []
    | none =>
      let c := contentOf p
      let st1 := if c = "" then st else { st with fullContent := st.fullContent ++ c }
      let evs1 := if c = "" then ([] : List CB) else [CB.chunk c (st.fullContent ++ c)]
      let q := foldAnns st1 (annsOf p)
      if finishOf p = some "error" then
        SSEStep.err ⟨"Stream terminated due to error", 500⟩ q.1 (evs1 ++ q.2)
      else
        let st3 := match p.usage with
          | some u => { q.1 with usage := some u }
          | none => q.1
        SSEStep.next st3 (evs1 ++ q.2)

/-- `parseSSEData` of the later decoder revision: the payloads `[DONE]`,
`done` and the empty payload are termination sentinels (return `false`,
i.e. `stop`); everything else goes through the JSON path. -/
def parseSSEData (parse : JsonParse) (st : DecodeState) (d : List Char) : SSEStep :=
  if d = "[DONE]".toList ∨ d = "done".toList ∨ d = [] then SSEStep.stop st []
  else parseJsonData parse st d

/-- The `data: ` line marker. -/
def dataMark : List Char := "data: ".toList

/-- One iteration of the main per-line loop of `fetchStream`: trim the line;
an SSE comment (leading `:`) fires `onProcessing` when it contains
`OPENROUTER PROCESSING` and is otherwise ignored; blank lines and lines
without the `data: ` marker are ignored; a `data: ` line has its payload
(`trimmedLine.slice(6)`) handed to `parseSSEData`. -/
def foldLine (parse : JsonParse) (st : DecodeState) (line : List Char) : SSEStep :=
  let t := jsTrim line
  if [':'].isPrefixOf t then
    if hasSub "OPENROUTER PROCESSING".toList t then SSEStep.next st [CB.processing]
    else SSEStep.next st []
  else if t = [] then SSEStep.next st []
  else if dataMark.isPrefixOf t then parseSSEData parse st (t.drop 6)
  else SSEStep.next st []

/-- How a batch of lines (or the whole decode) ended: the loop ran out of
input (`more`), a termination sentinel completed the stream (`sdone`), or an
`APIError` was thrown (`threw`). -/
inductive Sig where
  | more
  | sdone
  | threw (e : APIError)
  deriving DecidableEq

/-- The per-line loop over the complete lines extracted from one chunk:
stops early on a termination sentinel (the source `return`s) or on a thrown
`APIError`. -/
def foldLines (parse : JsonParse) (st : DecodeState) : List (List Char) → DecodeState × List CB × Sig
  | [] => (st, [], Sig.more)
  | l :: ls =>
    match foldLine parse st l with
    | SSEStep.next st1 evs =>
      let r := foldLines parse st1 ls
      (r.1, evs ++ r.2.1, r.2.2)
    | SSEStep.stop st1 evs => (st1, evs, Sig.sdone)
    | SSEStep.err e st1 evs => (st1, evs, Sig.threw e)

/-- Result of the chunk-reading loop: final line buffer, decode state,
ordered callback invocations, and how the loop ended. -/
structure LoopOut where
  buf : List Char
  st : DecodeState
  evs : List CB
  sig : Sig
  deriving DecidableEq

/-- The `while (true)` chunk loop of `fetchStream`, without its terminal
handling: each chunk is appended to the buffer, the buffer is split on
newlines keeping the trailing fragment, and the complete lines are processed
in order. Ends when the chunks run out (`more`, i.e. the next read would
report `done` or throw), on a termination sentinel, or on a thrown error. -/
def processChunks (parse : JsonParse) (buf : List Char) (st : DecodeState) : List (List Char) → LoopOut
  | [] => ⟨buf, st, [], Sig.more⟩
  | c :: cs =>
    let sp := splitNl (buf ++ c)
    let r := foldLines parse st sp.1
    match r.2.2 with
    | Sig.more =>
      let o := processChunks parse sp.2 r.1 cs
      ⟨o.buf, o.st, r.2.1 ++ o.evs, o.sig⟩
    | Sig.sdone => ⟨sp.2, r.1, r.2.1, Sig.sdone⟩
    | Sig.threw e => ⟨sp.2, r.1, r.2.1, Sig.threw e⟩

/-- The `onComplete` invocation with the current decode state. -/
def completeCB (st : DecodeState) : CB :=
  CB.complete st.fullContent st.usage st.cites

/-- The flush loop run when the transport closes with buffered content:
every buffered line that carries the `data: ` marker is parsed
(`parseSSEData` on `trimmedLine.slice(6)`); a sentinel breaks out, a thrown
`APIError` propagates; other line kinds are skipped. -/
def flushLines (parse : JsonParse) (st : DecodeState) : List (List Char) → DecodeState × List CB × Sig
  | [] => (st, [], Sig.more)
  | l :: ls =>
    let t := jsTrim l
    if dataMark.isPrefixOf t then
      match parseSSEData parse st (t.drop 6) with
      | SSEStep.next st1 evs =>
        let r := flushLines parse st1 ls
        (r.1, evs ++ r.2.1, r.2.2)
      | SSEStep.stop st1 evs => (st1, evs, Sig.sdone)
      | SSEStep.err e st1 evs => (st1, evs, Sig.threw e)
    else flushLines parse st ls

/-- The `done` branch of the later decoder revision: when the connection
closes with non-blank buffered content, the buffered lines are flushed
through `flushLines` best-effort, then `onComplete` fires — unless the flush
threw, in which case the outer catch fires `onError`. -/
def closeOut (parse : JsonParse) (st : DecodeState) (buf : List Char) : List CB :=
  if jsTrim buf = [] then [completeCB st]
  else
    let r := flushLines parse st (splitAll buf)
    match r.2.2 with
    | Sig.threw e => r.2.1 ++ [CB.errorCB e]
    | _ => r.2.1 ++ [completeCB r.1]

/-- How the transport ends once the supplied chunks are exhausted: a normal
close (`reader.read()` reports `done`), a cancellation (`AbortError` raised
at the next read), or a transport error (already wrapped as `APIError`). -/
inductive Ending where
  | close
  | abort
  | terr (e : APIError)
  deriving DecidableEq

/-- The full decode of one streaming response: run the chunk loop, then emit
the terminal callback. A sentinel or the transport close completes the turn
(the close flushes the buffer first); a thrown `APIError` or transport error
reaches `onError`; an abort reaches `onComplete` with the partial content
(cancellation is not an error). -/
def runChunks (parse : JsonParse) (buf : List Char) (st : DecodeState)
    (cs : List (List Char)) (ending : Ending) : List CB :=
  let o := processChunks parse buf st cs
  o.evs ++
    match o.sig with
    | Sig.sdone => [completeCB o.st]
    | Sig.threw e => [CB.errorCB e]
    | Sig.more =>
      match ending with
      | Ending.close => closeOut parse o.st o.buf
      | Ending.abort => [completeCB o.st]
      | Ending.terr e => [CB.errorCB e]

/-- `fetchStream`: the decoder run from the initial state with an empty
buffer, as invoked for one streaming turn. -/
def fetchStream (parse : JsonParse) (cs : List (List Char)) (ending : Ending) : List CB :=
  runChunks parse [] initDecode cs ending

/-!
Chat-session model, from `src/js/services/chat.js`.

* Message ids are generated in the source by `Date.now().toString(36)` plus a
  random suffix — an opaque fresh token. The model draws ids from a `nextId`
  counter; freshness of source ids corresponds to the hypothesis that all
  ids already in history are below `nextId`.
* `timestamp` fields are not modelled (no claim mentions them).
* `saveCurrentChat(history)` (the localStorage mirror of the current chat)
  is modelled by the `saved` field; `saveChat` of `storage.js` (the saved
  chats map) is modelled only through the `currentChatId` it returns, since
  its stored content is an external collaborator concern.
* The event-bus emissions of `chat.js` are returned as an ordered `Notif`
  list.
* Only the streaming branch of `sendUserMessage` is modelled (the source
  takes it whenever `options.stream !== false`, and
  `config.chat.streamingEnabled` is `true` in `config.js`); both guard
  checks precede the branch in the source exactly as here.
-/

/-- One message of the conversation history (`addMessage` object shape,
minus the unmodelled `timestamp`). -/
structure Msg where
  id : Nat
  role : String
  content : String
  sources : List Citation
  images : List String
  deriving DecidableEq

/-- One event-bus emission of `chat.js`, in order. -/
inductive Notif where
  | loadingStart
  | loadingEnd
  | chatUpdated (history : List Msg)
  | msgSend (m : Msg)
  | aiStreaming (chunk full : String)
  | aiSourcesUpd (sources : List Citation)
  | aiProcessing
  | aiComplete (content : String) (u : Option Usage) (sources : List Citation)
  | aiError (e : APIError)
  | aiSuggestions (ss : List String)
  deriving DecidableEq

/-- The module-level mutable state of `chat.js`: `history`, `currentChatId`,
`isLoading`, `currentAbortController` (modelled as presence), the
localStorage mirror written by `saveCurrentChat`, and the fresh-id counter. -/
structure ChatState where
  history : List Msg
  currentChatId : Option Nat
  isLoading : Bool
  hasController : Bool
  saved : List Msg
  nextId : Nat
  deriving DecidableEq

/-- `addMessage(role, content, sources, images)`: append a fresh message,
persist the history, emit `CHAT_UPDATED`. -/
def addMessage (st : ChatState) (role content : String)
    (sources : List Citation) (images : List String) : ChatState × Msg × List Notif :=
  let m : Msg := ⟨st.nextId, role, content, sources, images⟩
  let h := st.history ++ [m]
  ({ st with history := h, saved := h, nextId := st.nextId + 1 }, m, [Notif.chatUpdated h])

/-- Update the first assistant message of a reversed history (the source's
`history.findLast(m => m.role === 'assistant')` followed by in-place
mutation of `content` and, when given, `sources`). -/
def updFirstAsst (c : String) (src : Option (List Citation)) : List Msg → List Msg
  | [] => []
  | m :: rest =>
    if m.role = "assistant" then { m with content := c, sources := src.getD m.sources } :: rest
    else m :: updFirstAsst c src rest

/-- `updateLastAssistantMessage(content, sources)`: mutate the last assistant
message and persist; a history without assistant messages is untouched. -/
def updateLastAssistantMessage (st : ChatState) (c : String)
    (src : Option (List Citation)) : ChatState :=
  if st.history.any (fun m => m.role = "assistant") then
    let h := (updFirstAsst c src st.history.reverse).reverse
    { st with history := h, saved := h }
  else st

/-- `saveCurrentChatToStorage()`: `saveChat` keeps an existing chat id and
generates a fresh one for an unsaved chat. -/
def saveCurrentChatToStorage (st : ChatState) : ChatState :=
  match st.currentChatId with
  | some _ => st
  | none => { st with currentChatId := some st.nextId, nextId := st.nextId + 1 }

/-- `extractFollowUpSuggestions(content)`: heuristic follow-up questions from
the lowercased response text (the source also computes a `firstParagraph`
value it never uses). -/
def extractFollowUpSuggestions (content : String) : List String :=
  let low := content.toList.map Char.toLower
  let incl := fun (pat : String) => hasSub pat.toList low
  let s1 := if incl "compared to" || incl "versus" || incl " vs " then
    ["What are the key differences in more detail?"] else []
  let s2 := if incl "1." || incl "first," || incl "step " then
    ["Can you explain the most important step?"] else []
  let s3 := if incl "function" || incl "code" || incl "implementation" then
    ["Can you show a code example?"] else []
  let s4 := if incl "however" || incl "although" || incl "but " then
    ["What are the main limitations or drawbacks?"] else []
  let s5 := if incl "recommend" || incl "suggest" || incl "best practice" then
    ["What are alternative approaches?"] else []
  let base := s1 ++ s2 ++ s3 ++ s4 ++ s5
  let base2 := if base.length < 2 then base ++ ["Can you elaborate on this topic?"] else base
  let base3 := if base2.length < 3 then base2 ++ ["What are practical applications of this?"] else base2
  base3.take 3

/-- `generateFollowUpSuggestions`: no emission for responses under 100
characters; otherwise `AI_SUGGESTIONS` with the extracted suggestions (the
extraction always returns at least two, so the non-empty check passes). -/
def followUpNotifs (content : String) : List Notif :=
  if content.length < 100 then []
  else
    let ss := extractFollowUpSuggestions content
    if ss.length > 0 then [Notif.aiSuggestions ss] else []

/-- The `content` of the history message with the given id (reading
`assistantMessage.content`, whose object lives in the history), defaulting
to the empty string. -/
def msgContentById (h : List Msg) (i : Nat) : String :=
  ((h.find? (fun m => m.id = i)).map Msg.content).getD ""

/-- The fold of one decoder callback through the callback object that
`sendUserMessage` passes to `sendMessageStream`, given the placeholder
assistant message id `aid`:
`onChunk` mutates the last assistant message and emits `AI_STREAMING`;
`onAnnotations` rewrites its sources (keeping its current content) and emits
`AI_SOURCES_UPDATED`; `onProcessing` emits `AI_PROCESSING`; `onComplete`
finalizes content and sources, saves the chat and emits `AI_COMPLETE` plus
the follow-up suggestions; `onError` removes the placeholder from history,
persists, and emits `AI_ERROR`. -/
def applyCB (aid : Nat) (st : ChatState) : CB → ChatState × List Notif
  | CB.chunk d f => (updateLastAssistantMessage st f none, [Notif.aiStreaming d f])
  | CB.cbSources anns =>
    let cur := msgContentById st.history aid
    (updateLastAssistantMessage st cur (some anns), [Notif.aiSourcesUpd anns])
  | CB.processing => (st, [Notif.aiProcessing])
  | CB.complete c u anns =>
    let st1 := updateLastAssistantMessage st c (some anns)
    let st2 := saveCurrentChatToStorage st1
    (st2, [Notif.aiComplete c u anns] ++ followUpNotifs c)
  | CB.errorCB e =>
    let h := st.history.filter (fun m => ¬ (m.id = aid))
    ({ st with history := h, saved := h }, [Notif.aiError e])

/-- Folding the decoder's ordered callback invocations through `applyCB`. -/
def foldCBs (aid : Nat) (st : ChatState) : List CB → ChatState × List Notif
  | [] => (st, [])
  | cb :: rest =>
    let p := applyCB aid st cb
    let q := foldCBs aid p.1 rest
    (q.1, p.2 ++ q.2)

/-- The synchronous failures of the chat-service entry points. -/
inductive SendErr where
  | alreadyInProgress
  | emptyMessage
  | messageNotFound
  deriving DecidableEq

/-- `sendUserMessage(content, options)` (streaming branch): reject when a
turn is already in flight or when the trimmed content is empty with no
images — both before any state change; otherwise set the in-flight flag,
append the user message (emitting `CHAT_UPDATED` then `MESSAGE_SEND`),
append the empty assistant placeholder, fold the decoder callbacks, and in
the `finally` clear the flag and controller and emit `LOADING_END`. Returns
the placeholder's id. -/
def sendUserMessage (st : ChatState) (content : String) (images : List String)
    (parse : JsonParse) (cs : List (List Char)) (ending : Ending) :
    ChatState × List Notif × Except SendErr Nat :=
  if st.isLoading then (st, [], Except.error SendErr.alreadyInProgress)
  else if jsTrim content.toList = [] ∧ images = [] then (st, [], Except.error SendErr.emptyMessage)
  else
    let st1 := { st with isLoading := true, hasController := true }
    let r1 := addMessage st1 "user" content [] images
    let r2 := addMessage r1.1 "assistant" "" [] []
    let cbs := runChunks parse [] initDecode cs ending
    let r3 := foldCBs r2.2.1.id r2.1 cbs
    let st5 := { r3.1 with isLoading := false, hasController := false }
    (st5,
     [Notif.loadingStart] ++ r1.2.2 ++ [Notif.msgSend r1.2.1] ++ r2.2.2 ++ r3.2
       ++ [Notif.loadingEnd],
     Except.ok r2.2.1.id)

/-- `editAndResend(messageId, newContent)`: reject an absent id; otherwise
truncate history to strictly before the target message, persist and emit
`CHAT_UPDATED`, then call `sendUserMessage(newContent)` — whose own failures
propagate after the truncation has already happened. -/
def editAndResend (st : ChatState) (messageId : Nat) (newContent : String)
    (parse : JsonParse) (cs : List (List Char)) (ending : Ending) :
    ChatState × List Notif × Except SendErr Nat :=
  match st.history.findIdx? (fun m => m.id = messageId) with
  | none => (st, [], Except.error SendErr.messageNotFound)
  | some i =>
    let h := st.history.take i
    let st1 := { st with history := h, saved := h }
    let r := sendUserMessage st1 newContent [] parse cs ending
    (r.1, Notif.chatUpdated h :: r.2.1, r.2.2)

/-- `cancelCurrentRequest()`: with a live abort controller, signal it, clear
the in-flight flag, emit `LOADING_END` and return `true`; otherwise `false`.
The abort itself surfaces to the decode loop as the `Ending.abort` case. -/
def cancelCurrentRequest (st : ChatState) : ChatState × List Notif × Bool :=
  if st.hasController then
    ({ st with hasController := false, isLoading := false }, [Notif.loadingEnd], true)
  else (st, [], false)

/-! Observers used to state the verified properties. -/

/-- The `(delta, accumulated)` pairs of the `onChunk` invocations, in order. -/
def chunkPairs (evs : List CB) : List (String × String) :=
  evs.filterMap (fun cb => match cb with
    | CB.chunk d f => some (d, f)
    | _ => none)

/-- The `(delta, accumulated)` pairs of the `streaming` notifications, in
order. -/
def streamPairs (ns : List Notif) : List (String × String) :=
  ns.filterMap (fun n => match n with
    | Notif.aiStreaming d f => some (d, f)
    | _ => none)

/-- The payloads of the `error` notifications, in order. -/
def errNotifs (ns : List Notif) : List APIError :=
  ns.filterMap (fun n => match n with
    | Notif.aiError e => some e
    | _ => none)

/-- The payloads of the `complete` notifications, in order. -/
def completeNotifs (ns : List Notif) : List (String × Option Usage × List Citation) :=
  ns.filterMap (fun n => match n with
    | Notif.aiComplete c u s => some (c, u, s)
    | _ => none)

/-- Whether a callback is an intermediate (non-terminal) one: everything but
`onComplete` and `onError`. -/
def isMid : CB → Bool
  | CB.complete _ _ _ => false
  | CB.errorCB _ => false
  | _ => true

/-- Each streamed `(delta, accumulated)` pair extends the accumulator:
`accumulated = previous ++ delta` with a non-empty delta, chained along the
whole list. -/
def chainb (acc : String) : List (String × String) → Bool
  | [] => true
  | (d, f) :: r => (d != "") && (f == acc ++ d) && chainb f r

/-- The accumulator after a list of streamed pairs (the last `accumulated`,
or the starting accumulator when no pair was streamed). -/
def endAcc (acc : String) : List (String × String) → String
  | [] => acc
  | (_, f) :: r => endAcc f r

/-- The user message a successful `sendUserMessage` call appends (its id is
the current fresh counter). -/
def userMsgOf (st : ChatState) (content : String) (images : List String) : Msg :=
  ⟨st.nextId, "user", content, [], images⟩

/-- The empty assistant placeholder a streaming turn appends right after the
user message. -/
def placeholderOf (st : ChatState) : Msg :=
  ⟨st.nextId + 1, "assistant", "", [], []⟩

/-- The chat state right after a streaming turn appended the user message
and the placeholder, before any decoder callback is folded. -/
def midTurnState (st : ChatState) (content : String) (images : List String) : ChatState :=
  { st with
    history := st.history ++ [userMsgOf st content images, placeholderOf st],
    saved := st.history ++ [userMsgOf st content images, placeholderOf st],
    isLoading := true, hasController := true, nextId := st.nextId + 2 }

/-! Concrete fixtures used by the witness theorems. -/

/-- A payload carrying only the content delta `Hel`. -/
def pHel : Payload := ⟨none, [⟨some ⟨"Hel", none⟩, none⟩], none⟩

/-- A payload carrying the content delta `lo` together with a usage object. -/
def pLoU : Payload := ⟨none, [⟨some ⟨"lo", none⟩, none⟩], some ⟨7⟩⟩

/-- A payload carrying a vendor error object. -/
def pErr : Payload := ⟨some ⟨"rate limited", 429⟩, [], none⟩

/-- A payload carrying only `finish_reason: 'stop'`. -/
def pStop : Payload := ⟨none, [⟨none, some "stop"⟩], none⟩

/-- A payload carrying only `finish_reason: 'error'`. -/
def pFinErr : Payload := ⟨none, [⟨none, some "error"⟩], none⟩

/-- A payload carrying only a usage object. -/
def pUse : Payload := ⟨none, [⟨none, none⟩], some ⟨9⟩⟩

/-- A sample `JSON.parse` model: payload `A` parses to `pHel`, `B` to
`pLoU`, `E` to `pErr`, `F` to `pStop`, `G` to `pFinErr`, `U` to `pUse`;
everything else is malformed. -/
def sampleParse : JsonParse := fun d =>
  if d = "A".toList then some pHel
  else if d = "B".toList then some pLoU
  else if d = "E".toList then some pErr
  else if d = "F".toList then some pStop
  else if d = "G".toList then some pFinErr
  else if d = "U".toList then some pUse
  else none

/-! Theorems. -/

lemma dataMark_eq : dataMark = ['d', 'a', 't', 'a', ':', ' '] := by decide

lemma drop6_dataMark (d : List Char) : (dataMark ++ d).drop 6 = d := by
  rw [dataMark_eq]; rfl

lemma colon_not_pre_dataMark (d : List Char) : [':'].isPrefixOf (dataMark ++ d) = false := by
  rw [dataMark_eq]; rfl

lemma dataMark_append_ne_nil (d : List Char) : ¬ (dataMark ++ d = []) := by
  rw [dataMark_eq]; simp

lemma dataMark_isPrefixOf_append (d : List Char) : dataMark.isPrefixOf (dataMark ++ d) = true := by
  rw [List.isPrefixOf_iff_prefix]; exact List.prefix_append _ _

/-- A line whose trimmed form is `data: ` followed by payload `d` is handed
to `parseSSEData` on `d`. -/
lemma foldLine_data (parse : JsonParse) (st : DecodeState) (l d : List Char)
    (hline : jsTrim l = dataMark ++ d) :
    foldLine parse st l = parseSSEData parse st d := by
  unfold foldLine
  simp [hline, colon_not_pre_dataMark, dataMark_append_ne_nil,
    dataMark_isPrefixOf_append, drop6_dataMark]
  intro h _
  exact absurd h (by rw [dataMark_eq]; simp)

lemma foldLines_nil (parse : JsonParse) (st : DecodeState) :
    foldLines parse st [] = (st, [], Sig.more) := rfl

lemma foldLines_cons_next (parse : JsonParse) (st : DecodeState) (l : List Char)
    (ls : List (List Char)) (st1 : DecodeState) (evs : List CB)
    (h : foldLine parse st l = SSEStep.next st1 evs) :
    foldLines parse st (l :: ls)
      = ((foldLines parse st1 ls).1, evs ++ (foldLines parse st1 ls).2.1,
         (foldLines parse st1 ls).2.2) := by
  conv_lhs => rw [foldLines]
  rw [h]

lemma foldLines_cons_stop (parse : JsonParse) (st : DecodeState) (l : List Char)
    (ls : List (List Char)) (st1 : DecodeState) (evs : List CB)
    (h : foldLine parse st l = SSEStep.stop st1 evs) :
    foldLines parse st (l :: ls) = (st1, evs, Sig.sdone) := by
  conv_lhs => rw [foldLines]
  rw [h]

lemma foldLines_cons_err (parse : JsonParse) (st : DecodeState) (l : List Char)
    (ls : List (List Char)) (e : APIError) (st1 : DecodeState) (evs : List CB)
    (h : foldLine parse st l = SSEStep.err e st1 evs) :
    foldLines parse st (l :: ls) = (st1, evs, Sig.threw e) := by
  conv_lhs => rw [foldLines]
  rw [h]

lemma not_sentinel_of_parse {d : List Char}
    (h1 : d ≠ "[DONE]".toList) (h2 : d ≠ "done".toList) (h3 : d ≠ []) :
    ¬ (d = "[DONE]".toList ∨ d = "done".toList ∨ d = []) := by
  rintro (h | h | h) <;> [exact h1 h; exact h2 h; exact h3 h]

/-- A payload that fails JSON parsing is skipped: unchanged state, no
callback, loop continues. -/
lemma parseSSEData_malformed (parse : JsonParse) (st : DecodeState) (d : List Char)
    (hparse : parse d = none)
    (h1 : d ≠ "[DONE]".toList) (h2 : d ≠ "done".toList) (h3 : d ≠ []) :
    parseSSEData parse st d = SSEStep.next st [] := by
  unfold parseSSEData parseJsonData
  rw [if_neg (not_sentinel_of_parse h1 h2 h3), hparse]

/-- A well-formed frame carrying only a non-empty content delta: the
content is appended, `onChunk` fires once, the loop continues. -/
lemma parseSSEData_content (parse : JsonParse) (st : DecodeState) (d : List Char)
    (p : Payload) (c : String)
    (h1 : d ≠ "[DONE]".toList) (h2 : d ≠ "done".toList) (h3 : d ≠ [])
    (hp : parse d = some p) (herr : p.error = none)
    (hc : contentOf p = c) (hcne : c ≠ "")
    (hanns : annsOf p = []) (hfin : finishOf p = none) (hu : p.usage = none) :
    parseSSEData parse st d
      = SSEStep.next { st with fullContent := st.fullContent ++ c }
          [CB.chunk c (st.fullContent ++ c)] := by
  unfold parseSSEData parseJsonData
  rw [if_neg (not_sentinel_of_parse h1 h2 h3), hp]
  simp [herr, hc, hcne, hfin, hu, hanns, foldAnns]

/-- A well-formed frame carrying a non-empty content delta together with a
usage object: content appended, usage captured, `onChunk` fires once. -/
lemma parseSSEData_contentUsage (parse : JsonParse) (st : DecodeState) (d : List Char)
    (p : Payload) (c : String) (u : Usage)
    (h1 : d ≠ "[DONE]".toList) (h2 : d ≠ "done".toList) (h3 : d ≠ [])
    (hp : parse d = some p) (herr : p.error = none)
    (hc : contentOf p = c) (hcne : c ≠ "")
    (hanns : annsOf p = []) (hfin : finishOf p = none) (hu : p.usage = some u) :
    parseSSEData parse st d
      = SSEStep.next { st with fullContent := st.fullContent ++ c, usage := some u }
          [CB.chunk c (st.fullContent ++ c)] := by
  unfold parseSSEData parseJsonData
  rw [if_neg (not_sentinel_of_parse h1 h2 h3), hp]
  simp [herr, hc, hcne, hfin, hu, hanns, foldAnns]

/-- C7: a `data:` line whose payload fails JSON parsing is skipped without
any callback and without changing the decode state, the per-line loop
continues as if the line were absent, and a subsequent valid content-delta
line still produces its streaming event — a parse failure neither
terminates the stream nor surfaces as an error. -/
theorem malformed_frame_recovered_silently (parse : JsonParse) (st : DecodeState)
    (l d : List Char) (rest : List (List Char))
    (hline : jsTrim l = dataMark ++ d)
    (hparse : parse d = none)
    (h1 : d ≠ "[DONE]".toList) (h2 : d ≠ "done".toList) (h3 : d ≠ []) :
    parseSSEData parse st d = SSEStep.next st []
    ∧ foldLines parse st (l :: rest) = foldLines parse st rest
    ∧ (∀ l2 d2 p2 c, jsTrim l2 = dataMark ++ d2 →
        d2 ≠ "[DONE]".toList → d2 ≠ "done".toList → d2 ≠ [] →
        parse d2 = some p2 → p2.error = none →
        contentOf p2 = c → c ≠ "" →
        annsOf p2 = [] → finishOf p2 = none → p2.usage = none →
        foldLines parse st [l, l2]
          = ({ st with fullContent := st.fullContent ++ c },
             [CB.chunk c (st.fullContent ++ c)], Sig.more)) := by
  have hskip : parseSSEData parse st d = SSEStep.next st [] :=
    parseSSEData_malformed parse st d hparse h1 h2 h3
  have hmid : foldLine parse st l = SSEStep.next st [] := by
    rw [foldLine_data parse st l d hline, hskip]
  have hcons : ∀ rs, foldLines parse st (l :: rs) = foldLines parse st rs := by
    intro rs
    rw [foldLines_cons_next parse st l rs st [] hmid]
    simp
  refine ⟨hskip, hcons rest, ?_⟩
  intro l2 d2 p2 c hline2 hd1 hd2 hd3 hp2 herr2 hc2 hcne2 hanns2 hfin2 hu2
  rw [hcons [l2]]
  have hgood : foldLine parse st l2
      = SSEStep.next { st with fullContent := st.fullContent ++ c }
          [CB.chunk c (st.fullContent ++ c)] := by
    rw [foldLine_data parse st l2 d2 hline2,
      parseSSEData_content parse st d2 p2 c hd1 hd2 hd3 hp2 herr2 hc2 hcne2 hanns2 hfin2 hu2]
  rw [foldLines_cons_next parse st l2 [] _ _ hgood, foldLines_nil]
  simp

/-- Witness for C7: the junk payload is skipped and the following `data: A`
frame still streams `Hel`. -/
theorem malformed_frame_recovered_silently_witness :
    parseSSEData sampleParse initDecode "junk".toList = SSEStep.next initDecode []
    ∧ foldLines sampleParse initDecode ["data: junk".toList, "data: A".toList]
        = foldLines sampleParse initDecode ["data: A".toList]
    ∧ foldLines sampleParse initDecode ["data: junk".toList, "data: A".toList]
        = ({ initDecode with fullContent := initDecode.fullContent ++ "Hel" },
           [CB.chunk "Hel" (initDecode.fullContent ++ "Hel")], Sig.more) := by
  have h := malformed_frame_recovered_silently sampleParse initDecode
    "data: junk".toList "junk".toList ["data: A".toList]
    (by decide) (by decide) (by decide) (by decide) (by decide)
  exact ⟨h.1, h.2.1,
    h.2.2 "data: A".toList "A".toList pHel "Hel" (by decide) (by decide) (by decide)
      (by decide) (by decide) rfl rfl (by decide) rfl rfl rfl⟩

/-- C9: a `url_citation` annotation entry whose title is absent or empty
(both falsy in the source) is stored with its title set to the hostname of
the citation URL, not the empty title. -/
theorem citation_title_hostname_fallback (st : DecodeState) (a : AnnEntry)
    (uc : UrlCitation)
    (htype : a.type = "url_citation") (huc : a.url_citation = some uc)
    (htitle : uc.title = "")
    (hfresh : st.cites.any (fun c => c.url = uc.url) = false) :
    pushAnn st a
      = ({ st with cites :=
            st.cites ++ [⟨uc.url, urlHostname uc.url, a.start_index, a.end_index⟩] },
         [CB.cbSources
            (st.cites ++ [⟨uc.url, urlHostname uc.url, a.start_index, a.end_index⟩])])
    ∧ (mkCitation a uc).title = urlHostname uc.url := by
  constructor
  · simp [pushAnn, htype, huc, hfresh, mkCitation, htitle]
  · simp [mkCitation, htitle]

/-- Witness for C9 at a concrete entry with an empty title: the stored
title is the URL's hostname `a.example`, which is not empty. -/
theorem citation_title_hostname_fallback_witness :
    pushAnn initDecode ⟨"url_citation", some ⟨"https://a.example/x", ""⟩, some 1, some 2⟩
      = ({ initDecode with cites :=
            [⟨"https://a.example/x", urlHostname "https://a.example/x", some 1, some 2⟩] },
         [CB.cbSources
            [⟨"https://a.example/x", urlHostname "https://a.example/x", some 1, some 2⟩]])
    ∧ urlHostname "https://a.example/x" = "a.example"
    ∧ ¬ (urlHostname "https://a.example/x" = "") := by
  refine ⟨?_, by decide, by decide⟩
  exact (citation_title_hostname_fallback initDecode
    ⟨"url_citation", some ⟨"https://a.example/x", ""⟩, some 1, some 2⟩
    ⟨"https://a.example/x", ""⟩ rfl rfl rfl rfl).1

lemma parseSSEData_sentinel (parse : JsonParse) (st : DecodeState) (d : List Char)
    (h : d = "[DONE]".toList ∨ d = "done".toList ∨ d = []) :
    parseSSEData parse st d = SSEStep.stop st [] := by
  unfold parseSSEData
  rw [if_pos h]

/-- A frame with `finish_reason: 'error'` makes the decoder throw the fixed
`APIError` (content and annotations of the same frame were already
processed, usage was not yet captured). -/
lemma parseSSEData_finish_error (parse : JsonParse) (st : DecodeState) (d : List Char)
    (p : Payload)
    (h1 : d ≠ "[DONE]".toList) (h2 : d ≠ "done".toList) (h3 : d ≠ [])
    (hp : parse d = some p) (herr : p.error = none)
    (hfin : finishOf p = some "error") :
    stepErr (parseSSEData parse st d) = some ⟨"Stream terminated due to error", 500⟩ := by
  unfold parseSSEData parseJsonData
  rw [if_neg (not_sentinel_of_parse h1 h2 h3), hp]
  simp [herr, hfin, stepErr]

/-- A frame with any non-`error` finish reason (or none) does not end the
decode loop: the step is a `next`. -/
lemma parseSSEData_next_of_ok (parse : JsonParse) (st : DecodeState) (d : List Char)
    (p : Payload)
    (h1 : d ≠ "[DONE]".toList) (h2 : d ≠ "done".toList) (h3 : d ≠ [])
    (hp : parse d = some p) (herr : p.error = none)
    (hfin : ¬ (finishOf p = some "error")) :
    stepIsNext (parseSSEData parse st d) = true := by
  unfold parseSSEData parseJsonData
  rw [if_neg (not_sentinel_of_parse h1 h2 h3), hp]
  simp only [herr]
  rw [if_neg hfin]
  rcases p.usage with _ | u <;> simp [stepIsNext]

/-- A frame carrying a usage object (with no error and a non-`error` finish
reason) is still read: the captured usage is updated and the loop goes on. -/
lemma parseSSEData_usage_captured (parse : JsonParse) (st : DecodeState) (d : List Char)
    (p : Payload) (u : Usage)
    (h1 : d ≠ "[DONE]".toList) (h2 : d ≠ "done".toList) (h3 : d ≠ [])
    (hp : parse d = some p) (herr : p.error = none)
    (hfin : ¬ (finishOf p = some "error"))
    (hu : p.usage = some u) :
    (stepState (parseSSEData parse st d)).usage = some u
    ∧ stepIsNext (parseSSEData parse st d) = true := by
  refine ⟨?_, parseSSEData_next_of_ok parse st d p h1 h2 h3 hp herr hfin⟩
  unfold parseSSEData parseJsonData
  rw [if_neg (not_sentinel_of_parse h1 h2 h3), hp]
  simp only [herr]
  rw [if_neg hfin]
  simp [hu, stepState]

lemma processChunks_nil (parse : JsonParse) (buf : List Char) (st : DecodeState) :
    processChunks parse buf st [] = ⟨buf, st, [], Sig.more⟩ := rfl

lemma processChunks_cons_more (parse : JsonParse) (buf : List Char) (st : DecodeState)
    (c : List Char) (cs : List (List Char)) (st1 : DecodeState) (evs : List CB)
    (h : foldLines parse st (splitNl (buf ++ c)).1 = (st1, evs, Sig.more)) :
    processChunks parse buf st (c :: cs)
      = ⟨(processChunks parse (splitNl (buf ++ c)).2 st1 cs).buf,
         (processChunks parse (splitNl (buf ++ c)).2 st1 cs).st,
         evs ++ (processChunks parse (splitNl (buf ++ c)).2 st1 cs).evs,
         (processChunks parse (splitNl (buf ++ c)).2 st1 cs).sig⟩ := by
  conv_lhs => rw [processChunks]
  rw [h]

lemma processChunks_cons_stop (parse : JsonParse) (buf : List Char) (st : DecodeState)
    (c : List Char) (cs : List (List Char)) (st1 : DecodeState) (evs : List CB)
    (h : foldLines parse st (splitNl (buf ++ c)).1 = (st1, evs, Sig.sdone)) :
    processChunks parse buf st (c :: cs)
      = ⟨(splitNl (buf ++ c)).2, st1, evs, Sig.sdone⟩ := by
  conv_lhs => rw [processChunks]
  rw [h]

lemma processChunks_cons_threw (parse : JsonParse) (buf : List Char) (st : DecodeState)
    (c : List Char) (cs : List (List Char)) (st1 : DecodeState) (evs : List CB)
    (e : APIError)
    (h : foldLines parse st (splitNl (buf ++ c)).1 = (st1, evs, Sig.threw e)) :
    processChunks parse buf st (c :: cs)
      = ⟨(splitNl (buf ++ c)).2, st1, evs, Sig.threw e⟩ := by
  conv_lhs => rw [processChunks]
  rw [h]

/-- Unfolds `runChunks` when the loop ended on a termination sentinel. -/
lemma runChunks_sdone (parse : JsonParse) (buf : List Char) (st : DecodeState)
    (cs : List (List Char)) (ending : Ending) (b : List Char) (st1 : DecodeState)
    (evs : List CB)
    (h : processChunks parse buf st cs = ⟨b, st1, evs, Sig.sdone⟩) :
    runChunks parse buf st cs ending = evs ++ [completeCB st1] := by
  unfold runChunks
  rw [h]

/-- Unfolds `runChunks` when the loop threw an `APIError`. -/
lemma runChunks_threw (parse : JsonParse) (buf : List Char) (st : DecodeState)
    (cs : List (List Char)) (ending : Ending) (b : List Char) (st1 : DecodeState)
    (evs : List CB) (e : APIError)
    (h : processChunks parse buf st cs = ⟨b, st1, evs, Sig.threw e⟩) :
    runChunks parse buf st cs ending = evs ++ [CB.errorCB e] := by
  unfold runChunks
  rw [h]

/-- Unfolds `runChunks` on a normal transport close. -/
lemma runChunks_more_close (parse : JsonParse) (buf : List Char) (st : DecodeState)
    (cs : List (List Char)) (b : List Char) (st1 : DecodeState) (evs : List CB)
    (h : processChunks parse buf st cs = ⟨b, st1, evs, Sig.more⟩) :
    runChunks parse buf st cs Ending.close = evs ++ closeOut parse st1 b := by
  unfold runChunks
  rw [h]

/-- Unfolds `runChunks` on a cancellation. -/
lemma runChunks_more_abort (parse : JsonParse) (buf : List Char) (st : DecodeState)
    (cs : List (List Char)) (b : List Char) (st1 : DecodeState) (evs : List CB)
    (h : processChunks parse buf st cs = ⟨b, st1, evs, Sig.more⟩) :
    runChunks parse buf st cs Ending.abort = evs ++ [completeCB st1] := by
  unfold runChunks
  rw [h]

/-- Unfolds `runChunks` on a transport error. -/
lemma runChunks_more_terr (parse : JsonParse) (buf : List Char) (st : DecodeState)
    (cs : List (List Char)) (b : List Char) (st1 : DecodeState) (evs : List CB)
    (e : APIError)
    (h : processChunks parse buf st cs = ⟨b, st1, evs, Sig.more⟩) :
    runChunks parse buf st cs (Ending.terr e) = evs ++ [CB.errorCB e] := by
  unfold runChunks
  rw [h]

/-- C8: a payload whose `finish_reason` is `error` terminates the turn as an
error (the fixed `APIError` is thrown); any other finish reason — `stop`,
`length`, `content_filter`, … — leaves the decode loop running (the step is
a `next`), so a subsequent frame such as a trailing usage frame is still
read and captured; and the `[DONE]` sentinel ends the decode immediately
with a complete outcome, ignoring any further chunks. -/
theorem finish_reason_semantics (parse : JsonParse) (st : DecodeState) :
    (∀ d p, d ≠ "[DONE]".toList → d ≠ "done".toList → d ≠ [] →
      parse d = some p → p.error = none → finishOf p = some "error" →
      stepErr (parseSSEData parse st d) = some ⟨"Stream terminated due to error", 500⟩)
    ∧ (∀ d p, d ≠ "[DONE]".toList → d ≠ "done".toList → d ≠ [] →
      parse d = some p → p.error = none → ¬ (finishOf p = some "error") →
      stepIsNext (parseSSEData parse st d) = true)
    ∧ (∀ d p u, d ≠ "[DONE]".toList → d ≠ "done".toList → d ≠ [] →
      parse d = some p → p.error = none → ¬ (finishOf p = some "error") →
      p.usage = some u →
      (stepState (parseSSEData parse st d)).usage = some u
      ∧ stepIsNext (parseSSEData parse st d) = true)
    ∧ parseSSEData parse st "[DONE]".toList = SSEStep.stop st []
    ∧ (∀ rest ending, runChunks parse [] st ("data: [DONE]\n".toList :: rest) ending
        = [completeCB st]) := by
  refine ⟨?_, ?_, ?_, ?_, ?_⟩
  · intro d p h1 h2 h3 hp herr hfin
    exact parseSSEData_finish_error parse st d p h1 h2 h3 hp herr hfin
  · intro d p h1 h2 h3 hp herr hfin
    exact parseSSEData_next_of_ok parse st d p h1 h2 h3 hp herr hfin
  · intro d p u h1 h2 h3 hp herr hfin hu
    exact parseSSEData_usage_captured parse st d p u h1 h2 h3 hp herr hfin hu
  · exact parseSSEData_sentinel parse st _ (Or.inl rfl)
  · intro rest ending
    have hline : jsTrim "data: [DONE]".toList = dataMark ++ "[DONE]".toList := by decide
    have hstep : foldLine parse st "data: [DONE]".toList = SSEStep.stop st [] := by
      rw [foldLine_data parse st _ _ hline]
      exact parseSSEData_sentinel parse st _ (Or.inl rfl)
    have hsp : splitNl ([] ++ "data: [DONE]\n".toList)
        = (["data: [DONE]".toList], []) := by decide
    have hfold : foldLines parse st (splitNl ([] ++ "data: [DONE]\n".toList)).1
        = (st, [], Sig.sdone) := by
      rw [hsp]
      exact foldLines_cons_stop parse st _ [] st [] hstep
    have hproc := processChunks_cons_stop parse [] st _ rest st [] hfold
    rw [runChunks_sdone parse [] st _ ending _ st [] hproc]
    simp

/-- Witness for C8 at concrete frames: `G` (finish `error`) throws, `F`
(finish `stop`) continues, `U` (usage frame) is captured while continuing,
and a `[DONE]` chunk completes immediately even with junk chunks after. -/
theorem finish_reason_semantics_witness :
    stepErr (parseSSEData sampleParse initDecode "G".toList)
        = some ⟨"Stream terminated due to error", 500⟩
    ∧ stepIsNext (parseSSEData sampleParse initDecode "F".toList) = true
    ∧ (stepState (parseSSEData sampleParse initDecode "U".toList)).usage = some ⟨9⟩
    ∧ runChunks sampleParse [] initDecode ["data: [DONE]\n".toList, "junk".toList]
        Ending.close = [completeCB initDecode] := by
  have h := finish_reason_semantics sampleParse initDecode
  refine ⟨?_, ?_, ?_, ?_⟩
  · exact h.1 "G".toList pFinErr (by decide) (by decide) (by decide) (by decide) rfl (by decide)
  · exact h.2.1 "F".toList pStop (by decide) (by decide) (by decide) (by decide) rfl (by decide)
  · exact (h.2.2.1 "U".toList pUse ⟨9⟩ (by decide) (by decide) (by decide) (by decide) rfl
      (by decide) rfl).1
  · exact h.2.2.2.2 ["junk".toList] Ending.close

lemma splitNl_cons (c : Char) (t : List Char) :
    splitNl (c :: t)
      = (if c = '\n' then ([] :: (splitNl t).1, (splitNl t).2)
         else match (splitNl t).1 with
           | l :: ls => ((c :: l) :: ls, (splitNl t).2)
           | [] => ([], c :: (splitNl t).2)) := rfl

/-- Splitting a concatenation on newlines: the complete lines of `a ++ b`
are those of `a` followed by those of `a`'s trailing fragment glued to `b`,
and the final fragment is that of the glued remainder. This is the
correctness core of the decoder's line buffering. -/
lemma splitNl_append : ∀ (a b : List Char),
    splitNl (a ++ b)
      = ((splitNl a).1 ++ (splitNl ((splitNl a).2 ++ b)).1,
         (splitNl ((splitNl a).2 ++ b)).2) := by
  intro a
  induction a with
  | nil => intro b; simp [splitNl]
  | cons c rest ih =>
    intro b
    rw [List.cons_append, splitNl_cons c (rest ++ b), splitNl_cons c rest, ih b]
    by_cases hc : c = '\n'
    · simp [hc]
    · rw [if_neg hc, if_neg hc]
      rcases h1 : (splitNl rest).1 with _ | ⟨l, ls⟩
      · simp only [h1, List.nil_append]
        rw [List.cons_append]
        rw [splitNl_cons c ((splitNl rest).2 ++ b), if_neg hc]
      · simp [h1]

/-- Composing the per-line loop over an appended line list when the first
part leaves the loop running. -/
lemma foldLines_append_more (parse : JsonParse) :
    ∀ (l1 : List (List Char)) (st st1 : DecodeState) (e1 : List CB),
      foldLines parse st l1 = (st1, e1, Sig.more) → ∀ l2,
      foldLines parse st (l1 ++ l2)
        = ((foldLines parse st1 l2).1, e1 ++ (foldLines parse st1 l2).2.1,
           (foldLines parse st1 l2).2.2) := by
  intro l1
  induction l1 with
  | nil =>
    intro st st1 e1 h l2
    rw [foldLines_nil] at h
    simp only [Prod.mk.injEq] at h
    obtain ⟨h1, h2, _⟩ := h
    subst h1; subst h2
    simp
  | cons l ls ih =>
    intro st st1 e1 h l2
    cases hstep : foldLine parse st l with
    | next stA evsA =>
      rw [foldLines_cons_next parse st l ls stA evsA hstep] at h
      rcases hF : foldLines parse stA ls with ⟨stB, eB, sigB⟩
      rw [hF] at h
      simp only [Prod.mk.injEq] at h
      obtain ⟨hB1, hB2, hB3⟩ := h
      subst hB1; subst hB2; subst hB3
      rw [List.cons_append, foldLines_cons_next parse st l (ls ++ l2) stA evsA hstep,
        ih stA stB eB hF l2]
      simp [List.append_assoc]
    | stop stA evsA =>
      rw [foldLines_cons_stop parse st l ls stA evsA hstep] at h
      simp only [Prod.mk.injEq] at h
      exact absurd h.2.2 (by simp)
    | err e stA evsA =>
      rw [foldLines_cons_err parse st l ls e stA evsA hstep] at h
      simp only [Prod.mk.injEq] at h
      exact absurd h.2.2 (by simp)

/-- Composing the per-line loop over an appended line list when the first
part already ended the loop (sentinel or thrown error). -/
lemma foldLines_append_notmore (parse : JsonParse) :
    ∀ (l1 : List (List Char)) (st st1 : DecodeState) (e1 : List CB) (sig : Sig),
      foldLines parse st l1 = (st1, e1, sig) → ¬ (sig = Sig.more) → ∀ l2,
      foldLines parse st (l1 ++ l2) = (st1, e1, sig) := by
  intro l1
  induction l1 with
  | nil =>
    intro st st1 e1 sig h hsig l2
    rw [foldLines_nil] at h
    simp only [Prod.mk.injEq] at h
    exact absurd h.2.2.symm hsig
  | cons l ls ih =>
    intro st st1 e1 sig h hsig l2
    cases hstep : foldLine parse st l with
    | next stA evsA =>
      rw [foldLines_cons_next parse st l ls stA evsA hstep] at h
      rcases hF : foldLines parse stA ls with ⟨stB, eB, sigB⟩
      rw [hF] at h
      simp only [Prod.mk.injEq] at h
      obtain ⟨hB1, hB2, hB3⟩ := h
      subst hB1; subst hB2; subst hB3
      rw [List.cons_append, foldLines_cons_next parse st l (ls ++ l2) stA evsA hstep,
        ih stA stB eB sigB hF hsig l2]
    | stop stA evsA =>
      rw [foldLines_cons_stop parse st l ls stA evsA hstep] at h
      rw [List.cons_append, foldLines_cons_stop parse st l (ls ++ l2) stA evsA hstep]
      exact h
    | err e stA evsA =>
      rw [foldLines_cons_err parse st l ls e stA evsA hstep] at h
      rw [List.cons_append, foldLines_cons_err parse st l (ls ++ l2) e stA evsA hstep]
      exact h

/-- Feeding one chunk `a ++ b` and feeding `a` then `b` agree on the decode
state, the emitted callbacks and the loop signal; the final line buffer also
agrees whenever the loop is still running (when it is not, the buffer is
never consulted again). -/
lemma processChunks_merge (parse : JsonParse) (buf : List Char) (st : DecodeState)
    (a b : List Char) (cs : List (List Char)) :
    (processChunks parse buf st ((a ++ b) :: cs)).st
        = (processChunks parse buf st (a :: b :: cs)).st
    ∧ (processChunks parse buf st ((a ++ b) :: cs)).evs
        = (processChunks parse buf st (a :: b :: cs)).evs
    ∧ (processChunks parse buf st ((a ++ b) :: cs)).sig
        = (processChunks parse buf st (a :: b :: cs)).sig
    ∧ ((processChunks parse buf st ((a ++ b) :: cs)).sig = Sig.more →
        (processChunks parse buf st ((a ++ b) :: cs)).buf
          = (processChunks parse buf st (a :: b :: cs)).buf) := by
  have hs1 : (splitNl (buf ++ (a ++ b))).1
      = (splitNl (buf ++ a)).1 ++ (splitNl ((splitNl (buf ++ a)).2 ++ b)).1 := by
    rw [← List.append_assoc, splitNl_append (buf ++ a) b]
  have hs2 : (splitNl (buf ++ (a ++ b))).2
      = (splitNl ((splitNl (buf ++ a)).2 ++ b)).2 := by
    rw [← List.append_assoc, splitNl_append (buf ++ a) b]
  rcases hA : foldLines parse st (splitNl (buf ++ a)).1 with ⟨stA, eA, sigA⟩
  cases sigA with
  | more =>
    rcases hS : foldLines parse stA (splitNl ((splitNl (buf ++ a)).2 ++ b)).1
      with ⟨stS, eS, sigS⟩
    have hAB : foldLines parse st (splitNl (buf ++ (a ++ b))).1 = (stS, eA ++ eS, sigS) := by
      rw [hs1, foldLines_append_more parse _ st stA eA hA, hS]
    cases sigS with
    | more =>
      rw [processChunks_cons_more parse buf st (a ++ b) cs stS (eA ++ eS) hAB,
        processChunks_cons_more parse buf st a (b :: cs) stA eA hA,
        processChunks_cons_more parse (splitNl (buf ++ a)).2 stA b cs stS eS hS, hs2]
      simp [List.append_assoc]
    | sdone =>
      rw [processChunks_cons_stop parse buf st (a ++ b) cs stS (eA ++ eS) hAB,
        processChunks_cons_more parse buf st a (b :: cs) stA eA hA,
        processChunks_cons_stop parse (splitNl (buf ++ a)).2 stA b cs stS eS hS, hs2]
      simp
    | threw e =>
      rw [processChunks_cons_threw parse buf st (a ++ b) cs stS (eA ++ eS) e hAB,
        processChunks_cons_more parse buf st a (b :: cs) stA eA hA,
        processChunks_cons_threw parse (splitNl (buf ++ a)).2 stA b cs stS eS e hS, hs2]
      simp
  | sdone =>
    have hAB : foldLines parse st (splitNl (buf ++ (a ++ b))).1 = (stA, eA, Sig.sdone) := by
      rw [hs1]
      exact foldLines_append_notmore parse _ st stA eA Sig.sdone hA (by simp) _
    rw [processChunks_cons_stop parse buf st (a ++ b) cs stA eA hAB,
      processChunks_cons_stop parse buf st a (b :: cs) stA eA hA]
    simp
  | threw e =>
    have hAB : foldLines parse st (splitNl (buf ++ (a ++ b))).1 = (stA, eA, Sig.threw e) := by
      rw [hs1]
      exact foldLines_append_notmore parse _ st stA eA (Sig.threw e) hA (by simp) _
    rw [processChunks_cons_threw parse buf st (a ++ b) cs stA eA e hAB,
      processChunks_cons_threw parse buf st a (b :: cs) stA eA e hA]
    simp

/-- Splitting the first chunk in two does not change the decoded callback
sequence. -/
lemma runChunks_merge (parse : JsonParse) (buf : List Char) (st : DecodeState)
    (a b : List Char) (cs : List (List Char)) (ending : Ending) :
    runChunks parse buf st ((a ++ b) :: cs) ending
      = runChunks parse buf st (a :: b :: cs) ending := by
  obtain ⟨hst, hevs, hsig, hbuf⟩ := processChunks_merge parse buf st a b cs
  simp only [runChunks]
  rw [hevs, hsig, hst]
  cases h2 : (processChunks parse buf st (a :: b :: cs)).sig with
  | more =>
    cases ending with
    | close => rw [hbuf (by rw [hsig, h2])]
    | abort => rfl
    | terr e => rfl
  | sdone => rfl
  | threw e => rfl

/-- Any chunk list decodes like the single chunk made of its concatenation. -/
lemma runChunks_join (parse : JsonParse) (ending : Ending) :
    ∀ (cs : List (List Char)) (c buf : List Char) (st : DecodeState),
      runChunks parse buf st (c :: cs) ending
        = runChunks parse buf st [c ++ cs.flatten] ending := by
  intro cs
  induction cs with
  | nil => intro c buf st; simp
  | cons c2 cs' ih =>
    intro c buf st
    rw [← runChunks_merge parse buf st c c2 cs' ending, ih (c ++ c2) buf st,
      List.flatten_cons, List.append_assoc]

lemma runChunks_nil_single (parse : JsonParse) (st : DecodeState) (ending : Ending) :
    runChunks parse [] st [[]] ending = runChunks parse [] st [] ending := rfl

/-- C4: chunking is transparent to the decoder's output — any two ways of
splitting the same logical byte stream into chunk boundaries (mid-line,
mid-payload, one byte at a time, or one chunk per logical line) produce the
identical ordered callback sequence, for every termination mode. -/
theorem chunking_transparent_to_output (parse : JsonParse) (ending : Ending)
    (cs1 cs2 : List (List Char)) (h : cs1.flatten = cs2.flatten) :
    fetchStream parse cs1 ending = fetchStream parse cs2 ending := by
  have key : ∀ cs : List (List Char),
      fetchStream parse cs ending = fetchStream parse [cs.flatten] ending := by
    intro cs
    cases cs with
    | nil =>
      unfold fetchStream
      rw [List.flatten_nil]
      exact (runChunks_nil_single parse initDecode ending).symm
    | cons c cs' =>
      unfold fetchStream
      rw [List.flatten_cons]
      exact runChunks_join parse ending cs' c [] initDecode
  rw [key cs1, key cs2, h]

/-- Witness for C4: delivering `data: A\ndata: B\n` one byte at a time
produces exactly the same callbacks as delivering it as a single chunk,
namely the two content deltas and the completion. -/
theorem chunking_transparent_to_output_witness :
    fetchStream sampleParse (("data: A\ndata: B\n".toList).map (fun c => [c])) Ending.close
      = fetchStream sampleParse ["data: A\ndata: B\n".toList] Ending.close
    ∧ fetchStream sampleParse ["data: A\ndata: B\n".toList] Ending.close
      = [CB.chunk "Hel" "Hel", CB.chunk "lo" "Hello", CB.complete "Hello" (some ⟨7⟩) []] := by
  constructor
  · exact chunking_transparent_to_output sampleParse Ending.close _ _ (by decide)
  · decide

lemma splitNl_no_newline : ∀ (l : List Char), (∀ x ∈ l, ¬ x = '\n') → splitNl l = ([], l) := by
  intro l
  induction l with
  | nil => intro _; rfl
  | cons c rest ih =>
    intro h
    have hc : ¬ c = '\n' := h c (by simp)
    have hr := ih (fun x hx => h x (by simp [hx]))
    simp only [splitNl]
    rw [hr]
    simp [hc]

lemma flushLines_nil (parse : JsonParse) (st : DecodeState) :
    flushLines parse st [] = (st, [], Sig.more) := rfl

lemma flushLines_cons_data_next (parse : JsonParse) (st : DecodeState) (l d : List Char)
    (ls : List (List Char)) (st1 : DecodeState) (evs : List CB)
    (hline : jsTrim l = dataMark ++ d)
    (hstep : parseSSEData parse st d = SSEStep.next st1 evs) :
    flushLines parse st (l :: ls)
      = ((flushLines parse st1 ls).1, evs ++ (flushLines parse st1 ls).2.1,
         (flushLines parse st1 ls).2.2) := by
  conv_lhs => rw [flushLines]
  simp only [hline, dataMark_isPrefixOf_append, drop6_dataMark, if_true, hstep]

/-- C3: when the transport closes while the line buffer still holds a
trailing (newline-free) `data:` line whose payload parses to a content
delta with usage, that buffered line is flushed and parsed before the
stream completes: its `onChunk` fires and the completed turn carries the
extended content and the captured usage. -/
theorem trailing_buffer_flushed_on_close (parse : JsonParse) (cs : List (List Char))
    (buf : List Char) (st : DecodeState) (evs : List CB) (d : List Char)
    (p : Payload) (c : String) (u : Usage)
    (hrun : processChunks parse [] initDecode cs = ⟨buf, st, evs, Sig.more⟩)
    (hbuf : jsTrim buf = dataMark ++ d)
    (hnl : ∀ x ∈ buf, ¬ x = '\n')
    (hd1 : d ≠ "[DONE]".toList) (hd2 : d ≠ "done".toList) (hd3 : d ≠ [])
    (hp : parse d = some p) (herr : p.error = none)
    (hc : contentOf p = c) (hcne : c ≠ "")
    (hanns : annsOf p = []) (hfin : finishOf p = none) (hu : p.usage = some u) :
    fetchStream parse cs Ending.close
      = evs ++ [CB.chunk c (st.fullContent ++ c),
                CB.complete (st.fullContent ++ c) (some u) st.cites] := by
  have hstep := parseSSEData_contentUsage parse st d p c u hd1 hd2 hd3 hp herr hc hcne
    hanns hfin hu
  have hall : splitAll buf = [buf] := by
    unfold splitAll
    rw [splitNl_no_newline buf hnl]
    simp
  have hflush : flushLines parse st (splitAll buf)
      = ({ st with fullContent := st.fullContent ++ c, usage := some u },
         [CB.chunk c (st.fullContent ++ c)], Sig.more) := by
    rw [hall, flushLines_cons_data_next parse st buf d [] _ _ hbuf hstep, flushLines_nil]
    simp
  have hclose : closeOut parse st buf
      = [CB.chunk c (st.fullContent ++ c),
         CB.complete (st.fullContent ++ c) (some u) st.cites] := by
    unfold closeOut
    rw [if_neg (by rw [hbuf]; exact dataMark_append_ne_nil d), hflush]
    simp [completeCB]
  unfold fetchStream
  rw [runChunks_more_close parse [] initDecode cs buf st evs hrun, hclose]

/-- Witness for C3: the stream `data: A\ndata: B` ends without a final
newline; the buffered `data: B` line is flushed on close, streaming `lo`
and completing with content `Hello` and the usage object of payload `B`. -/
theorem trailing_buffer_flushed_on_close_witness :
    fetchStream sampleParse ["data: A\ndata: B".toList] Ending.close
      = [CB.chunk "Hel" "Hel", CB.chunk "lo" "Hello",
         CB.complete "Hello" (some ⟨7⟩) []] := by
  rw [trailing_buffer_flushed_on_close sampleParse ["data: A\ndata: B".toList]
    "data: B".toList ⟨"Hel", [], none⟩ [CB.chunk "Hel" "Hel"] "B".toList pLoU "lo" ⟨7⟩
    (by decide) (by decide) (by decide) (by decide) (by decide) (by decide) (by decide)
    rfl rfl (by decide) (by decide) rfl rfl]
  decide

lemma chunkPairs_append (e1 e2 : List CB) :
    chunkPairs (e1 ++ e2) = chunkPairs e1 ++ chunkPairs e2 := by
  simp [chunkPairs]

lemma chunkPairs_nil : chunkPairs [] = [] := rfl

lemma chunkPairs_cons_chunk (d f : String) (r : List CB) :
    chunkPairs (CB.chunk d f :: r) = (d, f) :: chunkPairs r := rfl

lemma chunkPairs_cons_sources (s : List Citation) (r : List CB) :
    chunkPairs (CB.cbSources s :: r) = chunkPairs r := rfl

lemma chunkPairs_cons_processing (r : List CB) :
    chunkPairs (CB.processing :: r) = chunkPairs r := rfl

lemma chunkPairs_cons_complete (c : String) (u : Option Usage) (s : List Citation) (r : List CB) :
    chunkPairs (CB.complete c u s :: r) = chunkPairs r := rfl

lemma chunkPairs_cons_error (e : APIError) (r : List CB) :
    chunkPairs (CB.errorCB e :: r) = chunkPairs r := rfl

lemma streamPairs_append (n1 n2 : List Notif) :
    streamPairs (n1 ++ n2) = streamPairs n1 ++ streamPairs n2 := by
  simp [streamPairs]

lemma streamPairs_nil : streamPairs [] = [] := rfl

lemma streamPairs_cons_streaming (d f : String) (r : List Notif) :
    streamPairs (Notif.aiStreaming d f :: r) = (d, f) :: streamPairs r := rfl

lemma streamPairs_cons_loadingStart (r : List Notif) :
    streamPairs (Notif.loadingStart :: r) = streamPairs r := rfl

lemma streamPairs_cons_loadingEnd (r : List Notif) :
    streamPairs (Notif.loadingEnd :: r) = streamPairs r := rfl

lemma streamPairs_cons_chatUpdated (h : List Msg) (r : List Notif) :
    streamPairs (Notif.chatUpdated h :: r) = streamPairs r := rfl

lemma streamPairs_cons_msgSend (m : Msg) (r : List Notif) :
    streamPairs (Notif.msgSend m :: r) = streamPairs r := rfl

lemma streamPairs_cons_sources (s : List Citation) (r : List Notif) :
    streamPairs (Notif.aiSourcesUpd s :: r) = streamPairs r := rfl

lemma streamPairs_cons_processing (r : List Notif) :
    streamPairs (Notif.aiProcessing :: r) = streamPairs r := rfl

lemma streamPairs_cons_complete (c : String) (u : Option Usage) (s : List Citation)
    (r : List Notif) :
    streamPairs (Notif.aiComplete c u s :: r) = streamPairs r := rfl

lemma streamPairs_cons_error (e : APIError) (r : List Notif) :
    streamPairs (Notif.aiError e :: r) = streamPairs r := rfl

lemma streamPairs_cons_suggestions (ss : List String) (r : List Notif) :
    streamPairs (Notif.aiSuggestions ss :: r) = streamPairs r := rfl

lemma errNotifs_append (n1 n2 : List Notif) :
    errNotifs (n1 ++ n2) = errNotifs n1 ++ errNotifs n2 := by
  simp [errNotifs]

lemma completeNotifs_append (n1 n2 : List Notif) :
    completeNotifs (n1 ++ n2) = completeNotifs n1 ++ completeNotifs n2 := by
  simp [completeNotifs]

lemma endAcc_append : ∀ (l1 l2 : List (String × String)) (acc : String),
    endAcc acc (l1 ++ l2) = endAcc (endAcc acc l1) l2 := by
  intro l1
  induction l1 with
  | nil => intro l2 acc; simp [endAcc]
  | cons p r ih =>
    intro l2 acc
    rcases p with ⟨d, f⟩
    rw [List.cons_append]
    show endAcc acc ((d, f) :: (r ++ l2)) = _
    simp only [endAcc]
    exact ih l2 f

lemma chainb_append : ∀ (l1 l2 : List (String × String)) (acc : String),
    chainb acc (l1 ++ l2) = (chainb acc l1 && chainb (endAcc acc l1) l2) := by
  intro l1
  induction l1 with
  | nil => intro l2 acc; simp [chainb, endAcc]
  | cons p r ih =>
    intro l2 acc
    rcases p with ⟨d, f⟩
    rw [List.cons_append]
    show chainb acc ((d, f) :: (r ++ l2)) = _
    simp only [chainb, endAcc]
    rw [ih l2 f]
    simp [Bool.and_assoc]

lemma foldAnns_cons (st : DecodeState) (a : AnnEntry) (rest : List AnnEntry) :
    foldAnns st (a :: rest)
      = ((foldAnns (pushAnn st a).1 rest).1,
         (pushAnn st a).2 ++ (foldAnns (pushAnn st a).1 rest).2) := rfl

lemma pushAnn_shape (st : DecodeState) (a : AnnEntry) :
    (pushAnn st a).1.fullContent = st.fullContent
    ∧ (pushAnn st a).1.usage = st.usage
    ∧ chunkPairs (pushAnn st a).2 = []
    ∧ (pushAnn st a).2.all isMid = true := by
  unfold pushAnn
  by_cases ht : a.type = "url_citation"
  · rcases hu : a.url_citation with _ | uc
    · simp [ht, chunkPairs]
    · cases hany : st.cites.any (fun c => c.url = uc.url)
      · simp [ht, hany, chunkPairs, isMid]
      · simp [ht, hany, chunkPairs]
  · simp [ht, chunkPairs]

lemma foldAnns_shape : ∀ (l : List AnnEntry) (st : DecodeState),
    (foldAnns st l).1.fullContent = st.fullContent
    ∧ (foldAnns st l).1.usage = st.usage
    ∧ chunkPairs (foldAnns st l).2 = []
    ∧ (foldAnns st l).2.all isMid = true := by
  intro l
  induction l with
  | nil => intro st; simp [foldAnns, chunkPairs]
  | cons a rest ih =>
    intro st
    obtain ⟨h1, h2, h3, h4⟩ := pushAnn_shape st a
    obtain ⟨g1, g2, g3, g4⟩ := ih (pushAnn st a).1
    rw [foldAnns_cons]
    refine ⟨by simp [g1, h1], by simp [g2, h2], ?_, ?_⟩
    · simp [chunkPairs_append, h3, g3]
    · simp [List.all_append, h4, g4]

/-- Event shape of one JSON-path payload step: the chunk pairs it emits are
chained from the incoming accumulator and end at the outgoing one, and all
its callbacks are intermediate ones. -/
lemma parseJsonData_shape (parse : JsonParse) (st : DecodeState) (d : List Char) :
    chainb st.fullContent (chunkPairs (stepEvs (parseJsonData parse st d))) = true
    ∧ endAcc st.fullContent (chunkPairs (stepEvs (parseJsonData parse st d)))
        = (stepState (parseJsonData parse st d)).fullContent
    ∧ (stepEvs (parseJsonData parse st d)).all isMid = true := by
  unfold parseJsonData
  rcases hp : parse d with _ | p
  · simp [stepEvs, stepState, chainb, chunkPairs_nil, endAcc]
  · rcases he : p.error with _ | e
    · by_cases hc : contentOf p = ""
      · obtain ⟨f1, f2, f3, f4⟩ := foldAnns_shape (annsOf p) st
        by_cases hf : finishOf p = some "error"
        · simp [he, hc, hf, stepEvs, stepState, chainb, endAcc, f1, f3, f4]
        · rcases hu : p.usage with _ | u
          · simp [he, hc, hf, hu, stepEvs, stepState, chainb, endAcc, f1, f3, f4]
          · simp [he, hc, hf, hu, stepEvs, stepState, chainb, endAcc, f1, f3, f4]
      · obtain ⟨f1, f2, f3, f4⟩ :=
          foldAnns_shape (annsOf p) { st with fullContent := st.fullContent ++ contentOf p }
        by_cases hf : finishOf p = some "error"
        · simp [he, hc, hf, stepEvs, stepState, chainb, endAcc, chunkPairs_cons_chunk,
            List.all_append, f1, f3, f4, isMid]
        · rcases hu : p.usage with _ | u
          · simp [he, hc, hf, hu, stepEvs, stepState, chainb, endAcc, chunkPairs_cons_chunk,
              List.all_append, f1, f3, f4, isMid]
          · simp [he, hc, hf, hu, stepEvs, stepState, chainb, endAcc, chunkPairs_cons_chunk,
              List.all_append, f1, f3, f4, isMid]
    · simp [he, stepEvs, stepState, chainb, chunkPairs_nil, endAcc]

lemma parseSSEData_shape (parse : JsonParse) (st : DecodeState) (d : List Char) :
    chainb st.fullContent (chunkPairs (stepEvs (parseSSEData parse st d))) = true
    ∧ endAcc st.fullContent (chunkPairs (stepEvs (parseSSEData parse st d)))
        = (stepState (parseSSEData parse st d)).fullContent
    ∧ (stepEvs (parseSSEData parse st d)).all isMid = true := by
  by_cases hs : d = "[DONE]".toList ∨ d = "done".toList ∨ d = []
  · rw [parseSSEData_sentinel parse st d hs]
    simp [stepEvs, stepState, chainb, chunkPairs_nil, endAcc]
  · rw [show parseSSEData parse st d = parseJsonData parse st d from by
      unfold parseSSEData; rw [if_neg hs]]
    exact parseJsonData_shape parse st d

lemma foldLine_shape (parse : JsonParse) (st : DecodeState) (line : List Char) :
    chainb st.fullContent (chunkPairs (stepEvs (foldLine parse st line))) = true
    ∧ endAcc st.fullContent (chunkPairs (stepEvs (foldLine parse st line)))
        = (stepState (foldLine parse st line)).fullContent
    ∧ (stepEvs (foldLine parse st line)).all isMid = true := by
  simp only [foldLine]
  by_cases h1 : [':'].isPrefixOf (jsTrim line) = true
  · rw [if_pos h1]
    by_cases h2 : hasSub "OPENROUTER PROCESSING".toList (jsTrim line) = true
    · rw [if_pos h2]
      simp [stepEvs, stepState, chainb, chunkPairs_nil, chunkPairs_cons_processing,
        endAcc, isMid]
    · rw [if_neg h2]
      simp [stepEvs, stepState, chainb, chunkPairs_nil, endAcc]
  · rw [if_neg h1]
    by_cases h3 : jsTrim line = []
    · rw [if_pos h3]
      simp [stepEvs, stepState, chainb, chunkPairs_nil, endAcc]
    · rw [if_neg h3]
      by_cases h4 : dataMark.isPrefixOf (jsTrim line) = true
      · rw [if_pos h4]
        exact parseSSEData_shape parse st ((jsTrim line).drop 6)
      · rw [if_neg h4]
        simp [stepEvs, stepState, chainb, chunkPairs_nil, endAcc]

lemma foldLines_shape (parse : JsonParse) : ∀ (ls : List (List Char)) (st : DecodeState),
    chainb st.fullContent (chunkPairs (foldLines parse st ls).2.1) = true
    ∧ endAcc st.fullContent (chunkPairs (foldLines parse st ls).2.1)
        = (foldLines parse st ls).1.fullContent
    ∧ (foldLines parse st ls).2.1.all isMid = true := by
  intro ls
  induction ls with
  | nil => intro st; simp [foldLines_nil, chainb, chunkPairs, endAcc]
  | cons l rest ih =>
    intro st
    obtain ⟨a1, a2, a3⟩ := foldLine_shape parse st l
    cases hstep : foldLine parse st l with
    | next st1 evs =>
      rw [hstep] at a1 a2 a3
      simp only [stepEvs, stepState] at a1 a2 a3
      obtain ⟨b1, b2, b3⟩ := ih st1
      rw [foldLines_cons_next parse st l rest st1 evs hstep]
      refine ⟨?_, ?_, ?_⟩
      · simp [chunkPairs_append, chainb_append, a1, a2, b1]
      · simp [chunkPairs_append, endAcc_append, a2, b2]
      · simp [List.all_append, a3, b3]
    | stop st1 evs =>
      rw [hstep] at a1 a2 a3
      simp only [stepEvs, stepState] at a1 a2 a3
      rw [foldLines_cons_stop parse st l rest st1 evs hstep]
      exact ⟨a1, a2, a3⟩
    | err e st1 evs =>
      rw [hstep] at a1 a2 a3
      simp only [stepEvs, stepState] at a1 a2 a3
      rw [foldLines_cons_err parse st l rest e st1 evs hstep]
      exact ⟨a1, a2, a3⟩

lemma processChunks_shape (parse : JsonParse) :
    ∀ (cs : List (List Char)) (buf : List Char) (st : DecodeState),
    chainb st.fullContent (chunkPairs (processChunks parse buf st cs).evs) = true
    ∧ endAcc st.fullContent (chunkPairs (processChunks parse buf st cs).evs)
        = (processChunks parse buf st cs).st.fullContent
    ∧ (processChunks parse buf st cs).evs.all isMid = true := by
  intro cs
  induction cs with
  | nil => intro buf st; simp [processChunks_nil, chainb, chunkPairs, endAcc]
  | cons c rest ih =>
    intro buf st
    obtain ⟨a1, a2, a3⟩ := foldLines_shape parse (splitNl (buf ++ c)).1 st
    rcases hF : foldLines parse st (splitNl (buf ++ c)).1 with ⟨st1, evs, sig⟩
    rw [hF] at a1 a2 a3
    simp only [] at a1 a2 a3
    cases sig with
    | more =>
      obtain ⟨b1, b2, b3⟩ := ih (splitNl (buf ++ c)).2 st1
      rw [processChunks_cons_more parse buf st c rest st1 evs hF]
      refine ⟨?_, ?_, ?_⟩
      · simp [chunkPairs_append, chainb_append, a1, a2, b1]
      · simp [chunkPairs_append, endAcc_append, a2, b2]
      · simp [List.all_append, a3, b3]
    | sdone =>
      rw [processChunks_cons_stop parse buf st c rest st1 evs hF]
      exact ⟨a1, a2, a3⟩
    | threw e =>
      rw [processChunks_cons_threw parse buf st c rest st1 evs e hF]
      exact ⟨a1, a2, a3⟩

lemma flushLines_cons_pre_next (parse : JsonParse) (st : DecodeState) (l : List Char)
    (ls : List (List Char)) (st1 : DecodeState) (evs : List CB)
    (h : dataMark.isPrefixOf (jsTrim l) = true)
    (hstep : parseSSEData parse st ((jsTrim l).drop 6) = SSEStep.next st1 evs) :
    flushLines parse st (l :: ls)
      = ((flushLines parse st1 ls).1, evs ++ (flushLines parse st1 ls).2.1,
         (flushLines parse st1 ls).2.2) := by
  conv_lhs => rw [flushLines]
  rw [if_pos h, hstep]

lemma flushLines_cons_pre_stop (parse : JsonParse) (st : DecodeState) (l : List Char)
    (ls : List (List Char)) (st1 : DecodeState) (evs : List CB)
    (h : dataMark.isPrefixOf (jsTrim l) = true)
    (hstep : parseSSEData parse st ((jsTrim l).drop 6) = SSEStep.stop st1 evs) :
    flushLines parse st (l :: ls) = (st1, evs, Sig.sdone) := by
  conv_lhs => rw [flushLines]
  rw [if_pos h, hstep]

lemma flushLines_cons_pre_err (parse : JsonParse) (st : DecodeState) (l : List Char)
    (ls : List (List Char)) (e : APIError) (st1 : DecodeState) (evs : List CB)
    (h : dataMark.isPrefixOf (jsTrim l) = true)
    (hstep : parseSSEData parse st ((jsTrim l).drop 6) = SSEStep.err e st1 evs) :
    flushLines parse st (l :: ls) = (st1, evs, Sig.threw e) := by
  conv_lhs => rw [flushLines]
  rw [if_pos h, hstep]

lemma flushLines_cons_skip (parse : JsonParse) (st : DecodeState) (l : List Char)
    (ls : List (List Char))
    (h : ¬ (dataMark.isPrefixOf (jsTrim l) = true)) :
    flushLines parse st (l :: ls) = flushLines parse st ls := by
  conv_lhs => rw [flushLines]
  rw [if_neg h]

lemma flushLines_shape (parse : JsonParse) : ∀ (ls : List (List Char)) (st : DecodeState),
    chainb st.fullContent (chunkPairs (flushLines parse st ls).2.1) = true
    ∧ endAcc st.fullContent (chunkPairs (flushLines parse st ls).2.1)
        = (flushLines parse st ls).1.fullContent
    ∧ (flushLines parse st ls).2.1.all isMid = true := by
  intro ls
  induction ls with
  | nil => intro st; simp [flushLines_nil, chainb, chunkPairs, endAcc]
  | cons l rest ih =>
    intro st
    by_cases h : dataMark.isPrefixOf (jsTrim l) = true
    · obtain ⟨a1, a2, a3⟩ := parseSSEData_shape parse st ((jsTrim l).drop 6)
      cases hstep : parseSSEData parse st ((jsTrim l).drop 6) with
      | next st1 evs =>
        rw [hstep] at a1 a2 a3
        simp only [stepEvs, stepState] at a1 a2 a3
        obtain ⟨b1, b2, b3⟩ := ih st1
        rw [flushLines_cons_pre_next parse st l rest st1 evs h hstep]
        refine ⟨?_, ?_, ?_⟩
        · simp [chunkPairs_append, chainb_append, a1, a2, b1]
        · simp [chunkPairs_append, endAcc_append, a2, b2]
        · simp [List.all_append, a3, b3]
      | stop st1 evs =>
        rw [hstep] at a1 a2 a3
        simp only [stepEvs, stepState] at a1 a2 a3
        rw [flushLines_cons_pre_stop parse st l rest st1 evs h hstep]
        exact ⟨a1, a2, a3⟩
      | err e st1 evs =>
        rw [hstep] at a1 a2 a3
        simp only [stepEvs, stepState] at a1 a2 a3
        rw [flushLines_cons_pre_err parse st l rest e st1 evs h hstep]
        exact ⟨a1, a2, a3⟩
    · rw [flushLines_cons_skip parse st l rest h]
      exact ih st

lemma closeOut_chain (parse : JsonParse) (st : DecodeState) (buf : List Char) :
    chainb st.fullContent (chunkPairs (closeOut parse st buf)) = true := by
  unfold closeOut
  by_cases hb : jsTrim buf = []
  · simp [hb, chunkPairs_nil, chunkPairs_cons_complete, chainb, completeCB]
  · rw [if_neg hb]
    obtain ⟨a1, a2, a3⟩ := flushLines_shape parse (splitAll buf) st
    rcases hF : flushLines parse st (splitAll buf) with ⟨st1, evs, sig⟩
    rw [hF] at a1 a2 a3
    simp only [] at a1 a2 a3
    cases sig with
    | more => simp [chunkPairs_append, chainb_append, a1, a2, chunkPairs_nil,
        chunkPairs_cons_complete, chainb]
    | sdone => simp [chunkPairs_append, chainb_append, a1, a2, chunkPairs_nil,
        chunkPairs_cons_complete, chainb]
    | threw e => simp [chunkPairs_append, chainb_append, a1, a2, chunkPairs_nil,
        chunkPairs_cons_error, chainb]

/-- The decoder's whole callback sequence streams chained content pairs. -/
lemma runChunks_chain (parse : JsonParse) (buf : List Char) (st : DecodeState)
    (cs : List (List Char)) (ending : Ending) :
    chainb st.fullContent (chunkPairs (runChunks parse buf st cs ending)) = true := by
  obtain ⟨a1, a2, a3⟩ := processChunks_shape parse cs buf st
  simp only [runChunks]
  cases hsig : (processChunks parse buf st cs).sig with
  | more =>
    cases ending with
    | close =>
      rw [chunkPairs_append, chainb_append, a1, a2]
      simp [closeOut_chain parse (processChunks parse buf st cs).st
        (processChunks parse buf st cs).buf]
    | abort => simp [chunkPairs_append, chainb_append, a1, a2, chunkPairs_nil,
        chunkPairs_cons_complete, chainb]
    | terr e => simp [chunkPairs_append, chainb_append, a1, a2, chunkPairs_nil,
        chunkPairs_cons_error, chainb]
  | sdone => simp [chunkPairs_append, chainb_append, a1, a2, chunkPairs_nil,
      chunkPairs_cons_complete, chainb]
  | threw e => simp [chunkPairs_append, chainb_append, a1, a2, chunkPairs_nil,
      chunkPairs_cons_error, chainb]

lemma foldCBs_cons (aid : Nat) (st : ChatState) (cb : CB) (rest : List CB) :
    foldCBs aid st (cb :: rest)
      = ((foldCBs aid (applyCB aid st cb).1 rest).1,
         (applyCB aid st cb).2 ++ (foldCBs aid (applyCB aid st cb).1 rest).2) := rfl

lemma followUpNotifs_streamPairs (c : String) : streamPairs (followUpNotifs c) = [] := by
  unfold followUpNotifs
  by_cases h : c.length < 100
  · simp [h, streamPairs_nil]
  · rw [if_neg h]
    by_cases h2 : (extractFollowUpSuggestions c).length > 0
    · simp [h2, streamPairs_nil, streamPairs_cons_suggestions]
    · simp [h2, streamPairs_nil]

lemma applyCB_streamPairs (aid : Nat) (st : ChatState) (cb : CB) :
    streamPairs (applyCB aid st cb).2 = chunkPairs [cb] := by
  cases cb <;>
    simp [applyCB, streamPairs_append, followUpNotifs_streamPairs, streamPairs_nil,
      streamPairs_cons_streaming, streamPairs_cons_sources, streamPairs_cons_processing,
      streamPairs_cons_complete, streamPairs_cons_error, chunkPairs_nil,
      chunkPairs_cons_chunk, chunkPairs_cons_sources, chunkPairs_cons_processing,
      chunkPairs_cons_complete, chunkPairs_cons_error]

lemma foldCBs_streamPairs (aid : Nat) :
    ∀ (cbs : List CB) (st : ChatState),
      streamPairs (foldCBs aid st cbs).2 = chunkPairs cbs := by
  intro cbs
  induction cbs with
  | nil => intro st; simp [foldCBs, streamPairs_nil, chunkPairs_nil]
  | cons cb rest ih =>
    intro st
    rw [foldCBs_cons]
    have h : chunkPairs (cb :: rest) = chunkPairs [cb] ++ chunkPairs rest := by
      rw [← chunkPairs_append]
      simp
    simp [streamPairs_append, applyCB_streamPairs, ih, h]

lemma errNotifs_nil : errNotifs [] = [] := rfl

lemma errNotifs_cons_error (e : APIError) (r : List Notif) :
    errNotifs (Notif.aiError e :: r) = e :: errNotifs r := rfl

lemma errNotifs_cons_loadingStart (r : List Notif) :
    errNotifs (Notif.loadingStart :: r) = errNotifs r := rfl

lemma errNotifs_cons_loadingEnd (r : List Notif) :
    errNotifs (Notif.loadingEnd :: r) = errNotifs r := rfl

lemma errNotifs_cons_chatUpdated (h : List Msg) (r : List Notif) :
    errNotifs (Notif.chatUpdated h :: r) = errNotifs r := rfl

lemma errNotifs_cons_msgSend (m : Msg) (r : List Notif) :
    errNotifs (Notif.msgSend m :: r) = errNotifs r := rfl

lemma errNotifs_cons_streaming (d f : String) (r : List Notif) :
    errNotifs (Notif.aiStreaming d f :: r) = errNotifs r := rfl

lemma errNotifs_cons_sources (s : List Citation) (r : List Notif) :
    errNotifs (Notif.aiSourcesUpd s :: r) = errNotifs r := rfl

lemma errNotifs_cons_processing (r : List Notif) :
    errNotifs (Notif.aiProcessing :: r) = errNotifs r := rfl

lemma errNotifs_cons_complete (c : String) (u : Option Usage) (s : List Citation)
    (r : List Notif) :
    errNotifs (Notif.aiComplete c u s :: r) = errNotifs r := rfl

lemma errNotifs_cons_suggestions (ss : List String) (r : List Notif) :
    errNotifs (Notif.aiSuggestions ss :: r) = errNotifs r := rfl

lemma completeNotifs_nil : completeNotifs [] = [] := rfl

lemma completeNotifs_cons_complete (c : String) (u : Option Usage) (s : List Citation)
    (r : List Notif) :
    completeNotifs (Notif.aiComplete c u s :: r) = (c, u, s) :: completeNotifs r := rfl

lemma completeNotifs_cons_error (e : APIError) (r : List Notif) :
    completeNotifs (Notif.aiError e :: r) = completeNotifs r := rfl

lemma completeNotifs_cons_loadingStart (r : List Notif) :
    completeNotifs (Notif.loadingStart :: r) = completeNotifs r := rfl

lemma completeNotifs_cons_loadingEnd (r : List Notif) :
    completeNotifs (Notif.loadingEnd :: r) = completeNotifs r := rfl

lemma completeNotifs_cons_chatUpdated (h : List Msg) (r : List Notif) :
    completeNotifs (Notif.chatUpdated h :: r) = completeNotifs r := rfl

lemma completeNotifs_cons_msgSend (m : Msg) (r : List Notif) :
    completeNotifs (Notif.msgSend m :: r) = completeNotifs r := rfl

lemma completeNotifs_cons_streaming (d f : String) (r : List Notif) :
    completeNotifs (Notif.aiStreaming d f :: r) = completeNotifs r := rfl

lemma completeNotifs_cons_sources (s : List Citation) (r : List Notif) :
    completeNotifs (Notif.aiSourcesUpd s :: r) = completeNotifs r := rfl

lemma completeNotifs_cons_processing (r : List Notif) :
    completeNotifs (Notif.aiProcessing :: r) = completeNotifs r := rfl

lemma completeNotifs_cons_suggestions (ss : List String) (r : List Notif) :
    completeNotifs (Notif.aiSuggestions ss :: r) = completeNotifs r := rfl

lemma followUpNotifs_errNotifs (c : String) : errNotifs (followUpNotifs c) = [] := by
  unfold followUpNotifs
  by_cases h : c.length < 100
  · simp [h, errNotifs_nil]
  · rw [if_neg h]
    by_cases h2 : (extractFollowUpSuggestions c).length > 0
    · simp [h2, errNotifs_nil, errNotifs_cons_suggestions]
    · simp [h2, errNotifs_nil]

lemma followUpNotifs_completeNotifs (c : String) :
    completeNotifs (followUpNotifs c) = [] := by
  unfold followUpNotifs
  by_cases h : c.length < 100
  · simp [h, completeNotifs_nil]
  · rw [if_neg h]
    by_cases h2 : (extractFollowUpSuggestions c).length > 0
    · simp [h2, completeNotifs_nil, completeNotifs_cons_suggestions]
    · simp [h2, completeNotifs_nil]

lemma saveStorage_fields (st : ChatState) :
    (saveCurrentChatToStorage st).history = st.history
    ∧ (saveCurrentChatToStorage st).saved = st.saved
    ∧ (saveCurrentChatToStorage st).isLoading = st.isLoading
    ∧ (saveCurrentChatToStorage st).hasController = st.hasController := by
  unfold saveCurrentChatToStorage
  rcases st.currentChatId with _ | i <;> simp

/-- Updating the last assistant message when the history ends in an
assistant message rewrites exactly that final message (and persists). -/
lemma updateLast_snoc (st : ChatState) (H : List Msg) (a : Msg) (c : String)
    (src : Option (List Citation))
    (hh : st.history = H ++ [a]) (ha : a.role = "assistant") :
    updateLastAssistantMessage st c src
      = { st with
          history := H ++ [{ a with content := c, sources := src.getD a.sources }],
          saved := H ++ [{ a with content := c, sources := src.getD a.sources }] } := by
  unfold updateLastAssistantMessage
  rw [hh]
  have hany : (H ++ [a]).any (fun m => m.role = "assistant") = true := by
    simp [List.any_append, ha]
  rw [if_pos hany]
  have hrev : (H ++ [a]).reverse = a :: H.reverse := by simp
  rw [hrev]
  have hupd : updFirstAsst c src (a :: H.reverse)
      = { a with content := c, sources := src.getD a.sources } :: H.reverse := by
    unfold updFirstAsst
    rw [if_pos ha]
  rw [hupd]
  simp

/-- One intermediate callback keeps the shape of a streaming chat state: the
history still ends in the (possibly updated) placeholder assistant message,
the bookkeeping fields are untouched, and no terminal notification fires. -/
lemma applyCB_mid (aid : Nat) (st : ChatState) (cb : CB) (H : List Msg) (a : Msg)
    (hmid : isMid cb = true) (hh : st.history = H ++ [a]) (ha : a.role = "assistant") :
    ∃ a', (applyCB aid st cb).1.history = H ++ [a']
      ∧ a'.id = a.id ∧ a'.role = "assistant"
      ∧ (applyCB aid st cb).1.isLoading = st.isLoading
      ∧ (applyCB aid st cb).1.hasController = st.hasController
      ∧ (applyCB aid st cb).1.nextId = st.nextId
      ∧ (applyCB aid st cb).1.currentChatId = st.currentChatId
      ∧ errNotifs (applyCB aid st cb).2 = []
      ∧ completeNotifs (applyCB aid st cb).2 = [] := by
  cases cb with
  | chunk d f =>
    refine ⟨{ a with content := f }, ?_⟩
    have h := updateLast_snoc st H a f none hh ha
    simp only [applyCB, h]
    simp [ha, errNotifs_nil, errNotifs_cons_streaming, completeNotifs_nil,
      completeNotifs_cons_streaming]
  | cbSources anns =>
    refine ⟨{ a with content := msgContentById st.history aid, sources := anns }, ?_⟩
    have h := updateLast_snoc st H a (msgContentById st.history aid) (some anns) hh ha
    simp only [applyCB, h]
    simp [ha, errNotifs_nil, errNotifs_cons_sources, completeNotifs_nil,
      completeNotifs_cons_sources]
  | processing =>
    exact ⟨a, by simp [applyCB, hh, ha, errNotifs_nil, errNotifs_cons_processing,
      completeNotifs_nil, completeNotifs_cons_processing]⟩
  | complete c u anns => simp [isMid] at hmid
  | errorCB e => simp [isMid] at hmid

lemma foldCBs_append (aid : Nat) : ∀ (l1 l2 : List CB) (st : ChatState),
    foldCBs aid st (l1 ++ l2)
      = ((foldCBs aid (foldCBs aid st l1).1 l2).1,
         (foldCBs aid st l1).2 ++ (foldCBs aid (foldCBs aid st l1).1 l2).2) := by
  intro l1
  induction l1 with
  | nil => intro l2 st; simp [foldCBs]
  | cons cb rest ih =>
    intro l2 st
    rw [List.cons_append, foldCBs_cons, ih l2 (applyCB aid st cb).1, foldCBs_cons]
    simp [List.append_assoc]

/-- Folding any run of intermediate callbacks keeps the placeholder at the
end of history (same id, assistant role), preserves the bookkeeping fields,
and fires no terminal notification. -/
lemma foldCBs_mids (aid : Nat) : ∀ (cbs : List CB) (st : ChatState) (H : List Msg) (a : Msg),
    cbs.all isMid = true → st.history = H ++ [a] → a.role = "assistant" →
    ∃ a', (foldCBs aid st cbs).1.history = H ++ [a']
      ∧ a'.id = a.id ∧ a'.role = "assistant"
      ∧ (foldCBs aid st cbs).1.isLoading = st.isLoading
      ∧ (foldCBs aid st cbs).1.hasController = st.hasController
      ∧ (foldCBs aid st cbs).1.nextId = st.nextId
      ∧ (foldCBs aid st cbs).1.currentChatId = st.currentChatId
      ∧ errNotifs (foldCBs aid st cbs).2 = []
      ∧ completeNotifs (foldCBs aid st cbs).2 = [] := by
  intro cbs
  induction cbs with
  | nil =>
    intro st H a _ hh ha
    exact ⟨a, by simp [foldCBs, hh, ha, errNotifs_nil, completeNotifs_nil]⟩
  | cons cb rest ih =>
    intro st H a hall hh ha
    rw [List.all_cons, Bool.and_eq_true] at hall
    obtain ⟨a1, g1, g2, g3, g4, g5, g6, g7, g8, g9⟩ :=
      applyCB_mid aid st cb H a hall.1 hh ha
    obtain ⟨a2, k1, k2, k3, k4, k5, k6, k7, k8, k9⟩ :=
      ih (applyCB aid st cb).1 H a1 hall.2 g1 g3
    rw [foldCBs_cons]
    refine ⟨a2, by simp [k1], by rw [k2, g2], k3, by simp [k4, g4],
      by simp [k5, g5], by simp [k6, g6], by simp [k7, g7], ?_, ?_⟩
    · simp [errNotifs_append, g8, k8]
    · simp [completeNotifs_append, g9, k9]

lemma foldCBs_single (aid : Nat) (s : ChatState) (cb : CB) :
    foldCBs aid s [cb] = ((applyCB aid s cb).1, (applyCB aid s cb).2) := by
  rw [foldCBs_cons]
  simp [foldCBs]

lemma applyCB_complete_eq (aid : Nat) (s : ChatState) (c : String) (u : Option Usage)
    (anns : List Citation) :
    applyCB aid s (CB.complete c u anns)
      = (saveCurrentChatToStorage (updateLastAssistantMessage s c (some anns)),
         [Notif.aiComplete c u anns] ++ followUpNotifs c) := rfl

lemma applyCB_error_eq (aid : Nat) (s : ChatState) (e : APIError) :
    applyCB aid s (CB.errorCB e)
      = ({ s with
           history := s.history.filter (fun m => ¬ (m.id = aid)),
           saved := s.history.filter (fun m => ¬ (m.id = aid)) },
         [Notif.aiError e]) := rfl

/-- Folding intermediate callbacks followed by the terminal `onComplete`:
the placeholder survives with the completed content and sources, exactly one
`complete` notification fires, and no `error` notification fires. -/
lemma foldCBs_run_complete (aid : Nat) (st3 : ChatState) (H : List Msg) (a : Msg)
    (devs : List CB) (c : String) (u : Option Usage) (anns : List Citation)
    (hmid : devs.all isMid = true) (hh : st3.history = H ++ [a]) (ha : a.role = "assistant") :
    ∃ am, (foldCBs aid st3 (devs ++ [CB.complete c u anns])).1.history = H ++ [am]
      ∧ am.id = a.id ∧ am.role = "assistant" ∧ am.content = c ∧ am.sources = anns
      ∧ errNotifs (foldCBs aid st3 (devs ++ [CB.complete c u anns])).2 = []
      ∧ completeNotifs (foldCBs aid st3 (devs ++ [CB.complete c u anns])).2
          = [(c, u, anns)] := by
  obtain ⟨a1, g1, g2, g3, _, _, _, _, g8, g9⟩ := foldCBs_mids aid devs st3 H a hmid hh ha
  rw [foldCBs_append aid devs [CB.complete c u anns] st3, foldCBs_single,
    applyCB_complete_eq]
  have hupd := updateLast_snoc (foldCBs aid st3 devs).1 H a1 c (some anns) g1 g3
  refine ⟨{ a1 with content := c, sources := anns }, ?_, by rw [g2], by simp [g3], rfl, rfl,
    ?_, ?_⟩
  · rw [(saveStorage_fields _).1, hupd]
    simp
  · simp [errNotifs_append, g8, errNotifs_cons_complete, errNotifs_nil,
      followUpNotifs_errNotifs]
  · simp [completeNotifs_append, g9, completeNotifs_cons_complete, completeNotifs_nil,
      followUpNotifs_completeNotifs]

/-- Folding intermediate callbacks followed by the terminal `onError`: the
placeholder is removed from history entirely (and from the persisted
mirror), exactly one `error` notification fires, and no `complete`
notification fires. -/
lemma foldCBs_run_error (aid : Nat) (st3 : ChatState) (H : List Msg) (a : Msg)
    (devs : List CB) (e : APIError)
    (hmid : devs.all isMid = true) (hh : st3.history = H ++ [a]) (ha : a.role = "assistant")
    (haid : a.id = aid) (hH : ∀ m ∈ H, ¬ m.id = aid) :
    (foldCBs aid st3 (devs ++ [CB.errorCB e])).1.history = H
    ∧ (foldCBs aid st3 (devs ++ [CB.errorCB e])).1.saved = H
    ∧ errNotifs (foldCBs aid st3 (devs ++ [CB.errorCB e])).2 = [e]
    ∧ completeNotifs (foldCBs aid st3 (devs ++ [CB.errorCB e])).2 = [] := by
  obtain ⟨a1, g1, g2, g3, _, _, _, _, g8, g9⟩ := foldCBs_mids aid devs st3 H a hmid hh ha
  rw [foldCBs_append aid devs [CB.errorCB e] st3, foldCBs_single, applyCB_error_eq]
  have hfilter : ((foldCBs aid st3 devs).1.history.filter (fun m => ¬ (m.id = aid))) = H := by
    rw [g1, List.filter_append]
    have h2 : List.filter (fun m => ¬ (m.id = aid)) [a1] = [] := by
      simp [g2, haid]
    have h1 : List.filter (fun m => ¬ (m.id = aid)) H = H := by
      apply List.filter_eq_self.mpr
      intro m hm
      simp [hH m hm]
    rw [h1, h2, List.append_nil]
  refine ⟨by simpa using hfilter, by simpa using hfilter, ?_, ?_⟩
  · simp [errNotifs_append, g8, errNotifs_cons_error, errNotifs_nil]
  · simp [completeNotifs_append, g9, completeNotifs_cons_error, completeNotifs_nil]

/-- The streaming turn of `sendUserMessage`, unfolded past its guards. -/
lemma sendUserMessage_run (st : ChatState) (content : String) (images : List String)
    (parse : JsonParse) (cs : List (List Char)) (ending : Ending)
    (hL : st.isLoading = false) (hne : ¬ (jsTrim content.toList = [] ∧ images = [])) :
    sendUserMessage st content images parse cs ending
      = ({ (foldCBs (placeholderOf st).id (midTurnState st content images)
            (runChunks parse [] initDecode cs ending)).1
           with isLoading := false, hasController := false },
         [Notif.loadingStart,
          Notif.chatUpdated (st.history ++ [userMsgOf st content images]),
          Notif.msgSend (userMsgOf st content images),
          Notif.chatUpdated (midTurnState st content images).history]
           ++ (foldCBs (placeholderOf st).id (midTurnState st content images)
                (runChunks parse [] initDecode cs ending)).2
           ++ [Notif.loadingEnd],
         Except.ok (placeholderOf st).id) := by
  unfold sendUserMessage
  simp only [hL, Bool.false_eq_true, if_false, hne, if_neg hne]
  simp [addMessage, userMsgOf, placeholderOf, midTurnState, List.append_assoc]

/-- C1: differential terminal behaviour of a streaming turn that has
received content deltas. If the turn then ends in a vendor `ErrorSignal`
(the decoder threw) or a transport error, the placeholder assistant message
is removed from history entirely — only the user message remains — with one
`error` and no `complete` notification. If instead the same deltas are
followed by a cancellation, the assistant message remains in history with
exactly the partial content (and sources) accumulated so far, and a
`complete` — not an `error` — notification fires with that partial
content. -/
theorem rollback_on_error_vs_retention_on_cancel
    (st : ChatState) (content : String) (images : List String) (parse : JsonParse)
    (hL : st.isLoading = false)
    (hne : ¬ (jsTrim content.toList = [] ∧ images = []))
    (hids : ∀ m ∈ st.history, m.id < st.nextId) :
    (∀ cs b dst devs,
       processChunks parse [] initDecode cs = ⟨b, dst, devs, Sig.more⟩ →
       ¬ (dst.fullContent = "") →
       ∃ am, (sendUserMessage st content images parse cs Ending.abort).1.history
           = st.history ++ [userMsgOf st content images, am]
         ∧ am.id = (placeholderOf st).id ∧ am.role = "assistant"
         ∧ am.content = dst.fullContent ∧ am.sources = dst.cites
         ∧ completeNotifs (sendUserMessage st content images parse cs Ending.abort).2.1
             = [(dst.fullContent, dst.usage, dst.cites)]
         ∧ errNotifs (sendUserMessage st content images parse cs Ending.abort).2.1 = [])
    ∧ (∀ cs b dst devs e,
       processChunks parse [] initDecode cs = ⟨b, dst, devs, Sig.more⟩ →
       ¬ (dst.fullContent = "") →
       (sendUserMessage st content images parse cs (Ending.terr e)).1.history
           = st.history ++ [userMsgOf st content images]
         ∧ errNotifs (sendUserMessage st content images parse cs (Ending.terr e)).2.1 = [e]
         ∧ completeNotifs
             (sendUserMessage st content images parse cs (Ending.terr e)).2.1 = [])
    ∧ (∀ cs b dst devs e ending,
       processChunks parse [] initDecode cs = ⟨b, dst, devs, Sig.threw e⟩ →
       ¬ (dst.fullContent = "") →
       (sendUserMessage st content images parse cs ending).1.history
           = st.history ++ [userMsgOf st content images]
         ∧ errNotifs (sendUserMessage st content images parse cs ending).2.1 = [e]
         ∧ completeNotifs (sendUserMessage st content images parse cs ending).2.1 = []) := by
  have hmidstate : (midTurnState st content images).history
      = (st.history ++ [userMsgOf st content images]) ++ [placeholderOf st] := by
    simp [midTurnState, List.append_assoc]
  have hrole : (placeholderOf st).role = "assistant" := rfl
  have hHfresh : ∀ m ∈ st.history ++ [userMsgOf st content images],
      ¬ m.id = (placeholderOf st).id := by
    intro m hm
    rcases List.mem_append.mp hm with h | h
    · have := hids m h
      simp only [placeholderOf]
      omega
    · simp only [List.mem_singleton] at h
      subst h
      simp only [userMsgOf, placeholderOf]
      omega
  refine ⟨?_, ?_, ?_⟩
  · intro cs b dst devs hproc hfc
    have hcbs : runChunks parse [] initDecode cs Ending.abort = devs ++ [completeCB dst] :=
      runChunks_more_abort parse [] initDecode cs b dst devs hproc
    have hmid : devs.all isMid = true := by
      have h := (processChunks_shape parse cs [] initDecode).2.2
      rw [hproc] at h
      exact h
    obtain ⟨am, m1, m2, m3, m4, m5, m6, m7⟩ :=
      foldCBs_run_complete (placeholderOf st).id (midTurnState st content images)
        (st.history ++ [userMsgOf st content images]) (placeholderOf st) devs
        dst.fullContent dst.usage dst.cites hmid hmidstate hrole
    rw [sendUserMessage_run st content images parse cs Ending.abort hL hne]
    refine ⟨am, ?_, m2, m3, m4, m5, ?_, ?_⟩
    · simp [hcbs, completeCB, m1, List.append_assoc]
    · simp [hcbs, completeCB, m7, completeNotifs_append, completeNotifs_nil,
        completeNotifs_cons_loadingStart, completeNotifs_cons_chatUpdated,
        completeNotifs_cons_msgSend, completeNotifs_cons_loadingEnd]
    · simp [hcbs, completeCB, m6, errNotifs_append, errNotifs_nil,
        errNotifs_cons_loadingStart, errNotifs_cons_chatUpdated,
        errNotifs_cons_msgSend, errNotifs_cons_loadingEnd]
  · intro cs b dst devs e hproc hfc
    have hcbs : runChunks parse [] initDecode cs (Ending.terr e) = devs ++ [CB.errorCB e] :=
      runChunks_more_terr parse [] initDecode cs b dst devs e hproc
    have hmid : devs.all isMid = true := by
      have h := (processChunks_shape parse cs [] initDecode).2.2
      rw [hproc] at h
      exact h
    obtain ⟨m1, m2, m3, m4⟩ :=
      foldCBs_run_error (placeholderOf st).id (midTurnState st content images)
        (st.history ++ [userMsgOf st content images]) (placeholderOf st) devs e
        hmid hmidstate hrole rfl hHfresh
    rw [sendUserMessage_run st content images parse cs (Ending.terr e) hL hne]
    refine ⟨?_, ?_, ?_⟩
    · simp [hcbs, m1]
    · simp [hcbs, m3, errNotifs_append, errNotifs_nil, errNotifs_cons_loadingStart,
        errNotifs_cons_chatUpdated, errNotifs_cons_msgSend, errNotifs_cons_loadingEnd]
    · simp [hcbs, m4, completeNotifs_append, completeNotifs_nil,
        completeNotifs_cons_loadingStart, completeNotifs_cons_chatUpdated,
        completeNotifs_cons_msgSend, completeNotifs_cons_loadingEnd]
  · intro cs b dst devs e ending hproc hfc
    have hcbs : runChunks parse [] initDecode cs ending = devs ++ [CB.errorCB e] :=
      runChunks_threw parse [] initDecode cs ending b dst devs e hproc
    have hmid : devs.all isMid = true := by
      have h := (processChunks_shape parse cs [] initDecode).2.2
      rw [hproc] at h
      exact h
    obtain ⟨m1, m2, m3, m4⟩ :=
      foldCBs_run_error (placeholderOf st).id (midTurnState st content images)
        (st.history ++ [userMsgOf st content images]) (placeholderOf st) devs e
        hmid hmidstate hrole rfl hHfresh
    rw [sendUserMessage_run st content images parse cs ending hL hne]
    refine ⟨?_, ?_, ?_⟩
    · simp [hcbs, m1]
    · simp [hcbs, m3, errNotifs_append, errNotifs_nil, errNotifs_cons_loadingStart,
        errNotifs_cons_chatUpdated, errNotifs_cons_msgSend, errNotifs_cons_loadingEnd]
    · simp [hcbs, m4, completeNotifs_append, completeNotifs_nil,
        completeNotifs_cons_loadingStart, completeNotifs_cons_chatUpdated,
        completeNotifs_cons_msgSend, completeNotifs_cons_loadingEnd]

/-- Witness for C1: a fresh session sends `hi`, receives the delta `Hel`,
and is then cancelled (assistant kept with content `Hel`, one `complete`,
no `error`) versus hit by a transport error (assistant gone, one `error`,
no `complete`). -/
theorem rollback_on_error_vs_retention_on_cancel_witness :
    (∃ am, (sendUserMessage ⟨[], none, false, false, [], 0⟩ "hi" [] sampleParse
          ["data: A\n".toList] Ending.abort).1.history
        = [] ++ [userMsgOf ⟨[], none, false, false, [], 0⟩ "hi" [], am]
      ∧ am.id = (placeholderOf ⟨[], none, false, false, [], 0⟩).id
      ∧ am.role = "assistant" ∧ am.content = "Hel" ∧ am.sources = []
      ∧ completeNotifs (sendUserMessage ⟨[], none, false, false, [], 0⟩ "hi" [] sampleParse
          ["data: A\n".toList] Ending.abort).2.1 = [("Hel", none, [])]
      ∧ errNotifs (sendUserMessage ⟨[], none, false, false, [], 0⟩ "hi" [] sampleParse
          ["data: A\n".toList] Ending.abort).2.1 = [])
    ∧ ((sendUserMessage ⟨[], none, false, false, [], 0⟩ "hi" [] sampleParse
          ["data: A\n".toList] (Ending.terr ⟨"boom", 0⟩)).1.history
        = [] ++ [userMsgOf ⟨[], none, false, false, [], 0⟩ "hi" []]
      ∧ errNotifs (sendUserMessage ⟨[], none, false, false, [], 0⟩ "hi" [] sampleParse
          ["data: A\n".toList] (Ending.terr ⟨"boom", 0⟩)).2.1 = [⟨"boom", 0⟩]
      ∧ completeNotifs (sendUserMessage ⟨[], none, false, false, [], 0⟩ "hi" [] sampleParse
          ["data: A\n".toList] (Ending.terr ⟨"boom", 0⟩)).2.1 = []) := by
  have h := rollback_on_error_vs_retention_on_cancel ⟨[], none, false, false, [], 0⟩
    "hi" [] sampleParse rfl (by decide) (by simp)
  constructor
  · exact h.1 ["data: A\n".toList] [] ⟨"Hel", [], none⟩ [CB.chunk "Hel" "Hel"]
      (by decide) (by decide)
  · exact h.2.1 ["data: A\n".toList] [] ⟨"Hel", [], none⟩ [CB.chunk "Hel" "Hel"] ⟨"boom", 0⟩
      (by decide) (by decide)

/-- C6: monotonic content growth — within one streaming turn every
`streaming` notification's accumulated content extends the previous one by
exactly the new (non-empty) delta, chained from the empty initial content:
content never shrinks or reorders. -/
theorem streaming_notifications_monotonic (st : ChatState) (content : String)
    (images : List String) (parse : JsonParse) (cs : List (List Char)) (ending : Ending)
    (hL : st.isLoading = false)
    (hne : ¬ (jsTrim content.toList = [] ∧ images = [])) :
    chainb "" (streamPairs (sendUserMessage st content images parse cs ending).2.1) = true := by
  have hrun := runChunks_chain parse [] initDecode cs ending
  unfold sendUserMessage
  simp only [hL, Bool.false_eq_true, if_false, hne, if_neg hne]
  simp [streamPairs_append, addMessage, foldCBs_streamPairs, streamPairs_nil,
    streamPairs_cons_loadingStart, streamPairs_cons_loadingEnd,
    streamPairs_cons_chatUpdated, streamPairs_cons_msgSend]
  simpa [initDecode] using hrun

/-- Witness for C6 on a concrete turn with two deltas: the streamed pairs
are chained. -/
theorem streaming_notifications_monotonic_witness :
    chainb "" (streamPairs (sendUserMessage ⟨[], none, false, false, [], 0⟩ "hi" []
      sampleParse ["data: A\ndata: B\n".toList] Ending.close).2.1) = true := by
  have h := streaming_notifications_monotonic ⟨[], none, false, false, [], 0⟩ "hi" []
    sampleParse ["data: A\ndata: B\n".toList] Ending.close rfl (by decide)
  exact h

/-- C5: within one turn, feeding the same citation URL twice (the titles may
differ) stores exactly one Citation — with the first occurrence's title —
and fires the sources-updated callback only for the first occurrence; in
general, any `url_citation` entry whose URL was already accumulated is a
complete no-op. -/
theorem citation_accumulation_idempotent_by_url (st : DecodeState)
    (a1 a2 : AnnEntry) (u1 u2 : UrlCitation)
    (ht1 : a1.type = "url_citation") (hu1 : a1.url_citation = some u1)
    (ht2 : a2.type = "url_citation") (hu2 : a2.url_citation = some u2)
    (hsame : u2.url = u1.url)
    (hfresh : st.cites.any (fun c => c.url = u1.url) = false) :
    (pushAnn st a1).1.cites = st.cites ++ [mkCitation a1 u1]
    ∧ (pushAnn st a1).2 = [CB.cbSources (st.cites ++ [mkCitation a1 u1])]
    ∧ pushAnn (pushAnn st a1).1 a2 = ((pushAnn st a1).1, [])
    ∧ (pushAnn (pushAnn st a1).1 a2).1.cites.filter (fun c => c.url = u1.url)
        = [mkCitation a1 u1]
    ∧ (mkCitation a1 u1).title
        = (if u1.title = "" then urlHostname u1.url else u1.title)
    ∧ (∀ st' a' u', a'.type = "url_citation" → a'.url_citation = some u' →
        st'.cites.any (fun c => c.url = u'.url) = true → pushAnn st' a' = (st', [])) := by
  have hpush1 : pushAnn st a1
      = ({ st with cites := st.cites ++ [mkCitation a1 u1] },
         [CB.cbSources (st.cites ++ [mkCitation a1 u1])]) := by
    simp [pushAnn, ht1, hu1, hfresh]
  have hurl : (mkCitation a1 u1).url = u1.url := by simp [mkCitation]
  have hany2 : (st.cites ++ [mkCitation a1 u1]).any (fun c => c.url = u2.url) = true := by
    simp [List.any_append, hurl, hsame]
  have hnoop : ∀ st' a' u', a'.type = "url_citation" → a'.url_citation = some u' →
      st'.cites.any (fun c => c.url = u'.url) = true → pushAnn st' a' = (st', []) := by
    intro st' a' u' ht' hu' hany
    simp [pushAnn, ht', hu', hany]
  have hfilter0 : st.cites.filter (fun c => c.url = u1.url) = [] := by
    rw [List.filter_eq_nil_iff]
    intro m hm
    have := (List.any_eq_false.mp hfresh) m hm
    simpa using this
  refine ⟨by rw [hpush1], by rw [hpush1], ?_, ?_, rfl, hnoop⟩
  · rw [hpush1]
    exact hnoop _ a2 u2 ht2 hu2 hany2
  · rw [hnoop _ a2 u2 ht2 hu2 (by rw [hpush1]; exact hany2), hpush1]
    simp [List.filter_append, hfilter0, hurl]

/-- Witness for C5: the URL `https://a.example` fed with titles `A` then
`A2` yields a single citation titled `A` and a single sources-updated
callback. -/
theorem citation_accumulation_idempotent_by_url_witness :
    (pushAnn initDecode ⟨"url_citation", some ⟨"https://a.example", "A"⟩, none, none⟩).1.cites
      = [⟨"https://a.example", "A", none, none⟩]
    ∧ pushAnn (pushAnn initDecode ⟨"url_citation", some ⟨"https://a.example", "A"⟩, none, none⟩).1
        ⟨"url_citation", some ⟨"https://a.example", "A2"⟩, none, none⟩
      = ((pushAnn initDecode ⟨"url_citation", some ⟨"https://a.example", "A"⟩, none, none⟩).1, []) := by
  have h := citation_accumulation_idempotent_by_url initDecode
    ⟨"url_citation", some ⟨"https://a.example", "A"⟩, none, none⟩
    ⟨"url_citation", some ⟨"https://a.example", "A2"⟩, none, none⟩
    ⟨"https://a.example", "A"⟩ ⟨"https://a.example", "A2"⟩
    rfl rfl rfl rfl rfl (by decide)
  exact ⟨by rw [h.1]; decide, h.2.2.1⟩

/-- C2: while a turn is in flight (`isLoading` true), any call to
`sendUserMessage` fails with `AlreadyInProgress`, returns the state
unchanged (same history, same persisted mirror, nothing appended) and emits
no notification. -/
theorem send_while_loading_rejected_unchanged (st : ChatState) (content : String)
    (images : List String) (parse : JsonParse) (cs : List (List Char)) (ending : Ending)
    (h : st.isLoading = true) :
    sendUserMessage st content images parse cs ending
      = (st, [], Except.error SendErr.alreadyInProgress) := by
  simp [sendUserMessage, h]

/-- Witness for C2 at a concrete in-flight state. -/
theorem send_while_loading_rejected_unchanged_witness :
    sendUserMessage ⟨[⟨0, "user", "hi", [], []⟩], none, true, true, [], 1⟩ "again" []
        sampleParse [] Ending.close
      = (⟨[⟨0, "user", "hi", [], []⟩], none, true, true, [], 1⟩, [],
         Except.error SendErr.alreadyInProgress) :=
  send_while_loading_rejected_unchanged _ "again" [] sampleParse [] Ending.close rfl

/-- C10: `editAndResend` on an id present in history truncates (and
persists) the history before the nested `sendUserMessage` guard runs, so
when that send is rejected — because a turn is in flight, or because the new
text is blank — the truncation has already happened: the call returns a
guard error, yet the history and its persisted mirror are already cut down
to the messages strictly before the target. -/
theorem editAndResend_truncates_before_send_guard (st : ChatState) (messageId : Nat)
    (newContent : String) (parse : JsonParse) (cs : List (List Char)) (ending : Ending)
    (i : Nat)
    (hfind : st.history.findIdx? (fun m => m.id = messageId) = some i)
    (hfail : st.isLoading = true ∨ jsTrim newContent.toList = []) :
    ∃ e, editAndResend st messageId newContent parse cs ending
        = ({ st with history := st.history.take i, saved := st.history.take i },
           [Notif.chatUpdated (st.history.take i)], Except.error e)
      ∧ (e = SendErr.alreadyInProgress ∨ e = SendErr.emptyMessage) := by
  cases hL : st.isLoading with
  | true =>
    refine ⟨SendErr.alreadyInProgress, ?_, Or.inl rfl⟩
    simp [editAndResend, hfind, sendUserMessage, hL]
  | false =>
    have htrim : jsTrim newContent.data = [] := by
      rcases hfail with h | h
      · rw [hL] at h; exact absurd h (by simp)
      · exact h
    refine ⟨SendErr.emptyMessage, ?_, Or.inr rfl⟩
    simp [editAndResend, hfind, sendUserMessage, hL, htrim]

/-- Witness for C10: a two-message history, a turn in flight, and an edit of
the first message; the returned error is `AlreadyInProgress` and the history
was already truncated to the empty list and persisted. -/
theorem editAndResend_truncates_before_send_guard_witness :
    ∃ e, editAndResend
          ⟨[⟨0, "user", "hi", [], []⟩, ⟨1, "assistant", "yo", [], []⟩], none, true, true,
            [⟨0, "user", "hi", [], []⟩, ⟨1, "assistant", "yo", [], []⟩], 2⟩
          0 "edited" sampleParse [] Ending.close
        = (⟨[], none, true, true, [], 2⟩, [Notif.chatUpdated []], Except.error e)
      ∧ (e = SendErr.alreadyInProgress ∨ e = SendErr.emptyMessage) :=
  editAndResend_truncates_before_send_guard _ 0 "edited" sampleParse [] Ending.close 0
    (by decide) (Or.inl rfl)

end Lampira
